import Mathlib

/-!
# video-tracker (`vt.c`): corner scorer and frame pipeline

A shallow embedding of the parts of `vt.c` that the specification talks about:

* `get_element` and `FAST_point_test` (the corner scorer),
* the score-map set-up of `FAST_render_thread`,
* `get_one_valid_pkt`, `get_one_frame` and the two decode loops of `main`.

Conventions.  A `uint8_t` is a `Fin 256`.  A `uint8_t *` is modelled by the
memory reachable from it, a function from element offsets to bytes, and the
pointer returned by `get_element (data, ...)` by its offset from `data`.  A C
`int` is an integer in `[-2^31, 2^31)`: every `int` operation of the source that
can leave that range (`width - 1`, `ph * width`, `pw + 3`, ...) is carried out in
32-bit two's complement (`int32`), an overflow wrapping around as it does in the
compiled code; the operands of the threshold comparison are `uint8_t` values
promoted to `int`.  Pointer arithmetic is not wrapped.  `DIE` ends the process:
it is the `error` branch of `Except`.
-/

namespace VT

/-! ## Bytes and buffers -/

/-- An 8-bit unsigned sample (`uint8_t`). -/
abbrev U8 := Fin 256

/-- The memory behind a `uint8_t *`, addressed by element offset. -/
abbrev Buf := Int → U8

/-- Store through a pointer: `*(buf + off) = v`. -/
def store (buf : Buf) (off : Int) (v : U8) : Buf :=
  fun i => if i = off then v else buf i

/-- Conversion of a non-negative integral value to `uint8_t`. -/
def toU8 (n : Nat) : U8 := ⟨n % 256, Nat.mod_lt _ (by decide)⟩

/-- A value of type `int`: 32-bit two's complement. -/
def int32 (z : Int) : Int := (z + 2147483648) % 4294967296 - 2147483648

/-! ## `get_element` -/

/-- The function `get_element (data, width, height, pw, ph)`: the offset from `data` of the
element it returns a pointer to, or the message of the `DIE` it runs into.  The differences
`width - 1`, `height - 1` and the product `ph * width` are `int` operations; the sum
`(data + pw) + (ph * width)` is pointer arithmetic. -/
def get_element (width height pw ph : Int) : Except String Int :=
  if width ≤ 0 then .error "width to small"
  else if height ≤ 0 then .error "height to small"
  else
    -- width clamping
    let pw := if pw ≥ width then int32 (width - 1) else if pw < 0 then 0 else pw
    -- height clamping
    let ph := if ph ≥ height then int32 (height - 1) else if ph < 0 then 0 else ph
    .ok (pw + int32 (ph * width))

/-! ## `FAST_point_test` -/

/-- The local `uint8_t t = 16`. -/
def t : U8 := 16

/-- The comparison `q - t > p || q + t < p` of `FAST_point_test`: the three `uint8_t`
operands are promoted to `int` before the subtraction, the addition and the comparisons. -/
def band_test (q p : U8) : Bool :=
  decide (int32 ((q.val : Int) - (t.val : Int)) > (p.val : Int)) ||
  decide (int32 ((q.val : Int) + (t.val : Int)) < (p.val : Int))

/-- The statement `if (q - t > p || q + t < p) in_t++;` on the `uint8_t` counter `in_t`. -/
def bump (q p : U8) (in_t : U8) : U8 :=
  if band_test q p then toU8 (in_t.val + 1) else in_t

/-- One pass through the body of the inner loop of `FAST_point_test`, at `(pw, ph)`:
the result buffer after it.  The coordinates `pw + 3`, `ph - 3`, ... passed to
`get_element` are `int` sums and differences. -/
def FAST_point_body (data : Buf) (w h : Int) (res : Buf) (pw ph : Int) :
    Except String Buf := do
  let p := data (← get_element w h pw ph)
  let p1 := data (← get_element w h pw (int32 (ph - 3)))
  let p5 := data (← get_element w h (int32 (pw + 3)) ph)
  let p9 := data (← get_element w h pw (int32 (ph + 3)))
  let p13 := data (← get_element w h (int32 (pw - 3)) ph)
  if !(band_test p1 p && band_test p5 p && band_test p9 p && band_test p13 p) then
    return res
  let in_t : U8 := 4
  let p2 := data (← get_element w h (int32 (pw + 1)) (int32 (ph - 3)))
  let in_t := bump p2 p in_t
  let p3 := data (← get_element w h (int32 (pw + 2)) (int32 (ph - 2)))
  let in_t := bump p3 p in_t
  let p4 := data (← get_element w h (int32 (pw + 3)) (int32 (ph - 1)))
  let in_t := bump p4 p in_t
  let p6 := data (← get_element w h (int32 (pw + 3)) (int32 (ph + 1)))
  let in_t := bump p6 p in_t
  let p7 := data (← get_element w h (int32 (pw + 2)) (int32 (ph + 2)))
  let in_t := bump p7 p in_t
  let p8 := data (← get_element w h (int32 (pw + 1)) (int32 (ph + 3)))
  let in_t := bump p8 p in_t
  let p10 := data (← get_element w h (int32 (pw - 1)) (int32 (ph + 3)))
  let in_t := bump p10 p in_t
  let p11 := data (← get_element w h (int32 (pw - 2)) (int32 (ph + 2)))
  let in_t := bump p11 p in_t
  let p12 := data (← get_element w h (int32 (pw - 3)) (int32 (ph + 1)))
  let in_t := bump p12 p in_t
  let p14 := data (← get_element w h (int32 (pw - 3)) (int32 (ph - 1)))
  let in_t := bump p14 p in_t
  let p15 := data (← get_element w h (int32 (pw - 2)) (int32 (ph - 2)))
  let in_t := bump p15 p in_t
  let p16 := data (← get_element w h (int32 (pw - 1)) (int32 (ph - 3)))
  let in_t := bump p16 p in_t
  if in_t.val > 12 then
    let point ← get_element w h pw ph
    -- an `int` sum divided by `16.0`: the quotient is exact in a double, and the
    -- conversion to `uint8_t` drops its fraction
    return store res point
      (toU8 ((p1.val + p2.val + p3.val + p4.val + p5.val + p6.val + p7.val + p8.val +
              p9.val + p10.val + p11.val + p12.val + p13.val + p14.val + p15.val +
              p16.val) / 16))
  else
    return res

/-- The function `FAST_point_test (data, w, h, res)`: the contents of `res` when it returns.
The outer loop runs `pw` over `0 .. w-1`, the inner loop `ph` over `0 .. h-1`. -/
def FAST_point_test (data : Buf) (w h : Int) (res : Buf) : Except String Buf :=
  (List.range w.toNat).foldlM
    (fun (res : Buf) (pw : Nat) =>
      (List.range h.toNat).foldlM
        (fun (res : Buf) (ph : Nat) => FAST_point_body data w h res (pw : Int) (ph : Int)) res)
    res

/-! ## `FAST_point_test` with every access checked

The same function, run on buffers of `w * h` elements whose every read and write is checked
against the bounds of the buffer: an access outside `[0, w * h)` ends the run with the
error `"out of bounds"`. -/

/-- The read `*(buf + off)` from a buffer of `n` elements. -/
def load_checked (n : Int) (buf : Buf) (off : Int) : Except String U8 :=
  if 0 ≤ off ∧ off < n then .ok (buf off) else .error "out of bounds"

/-- The write `*(buf + off) = v` to a buffer of `n` elements. -/
def store_checked (n : Int) (buf : Buf) (off : Int) (v : U8) : Except String Buf :=
  if 0 ≤ off ∧ off < n then .ok (store buf off v) else .error "out of bounds"

/-- The body of the inner loop of `FAST_point_test` at `(pw, ph)`, every read of `data` and
the write to `res` checked against `w * h` elements. -/
def FAST_point_body_checked (data : Buf) (w h : Int) (res : Buf) (pw ph : Int) :
    Except String Buf := do
  let p ← load_checked (w * h) data (← get_element w h pw ph)
  let p1 ← load_checked (w * h) data (← get_element w h pw (int32 (ph - 3)))
  let p5 ← load_checked (w * h) data (← get_element w h (int32 (pw + 3)) ph)
  let p9 ← load_checked (w * h) data (← get_element w h pw (int32 (ph + 3)))
  let p13 ← load_checked (w * h) data (← get_element w h (int32 (pw - 3)) ph)
  if !(band_test p1 p && band_test p5 p && band_test p9 p && band_test p13 p) then
    return res
  let in_t : U8 := 4
  let p2 ← load_checked (w * h) data (← get_element w h (int32 (pw + 1)) (int32 (ph - 3)))
  let in_t := bump p2 p in_t
  let p3 ← load_checked (w * h) data (← get_element w h (int32 (pw + 2)) (int32 (ph - 2)))
  let in_t := bump p3 p in_t
  let p4 ← load_checked (w * h) data (← get_element w h (int32 (pw + 3)) (int32 (ph - 1)))
  let in_t := bump p4 p in_t
  let p6 ← load_checked (w * h) data (← get_element w h (int32 (pw + 3)) (int32 (ph + 1)))
  let in_t := bump p6 p in_t
  let p7 ← load_checked (w * h) data (← get_element w h (int32 (pw + 2)) (int32 (ph + 2)))
  let in_t := bump p7 p in_t
  let p8 ← load_checked (w * h) data (← get_element w h (int32 (pw + 1)) (int32 (ph + 3)))
  let in_t := bump p8 p in_t
  let p10 ← load_checked (w * h) data (← get_element w h (int32 (pw - 1)) (int32 (ph + 3)))
  let in_t := bump p10 p in_t
  let p11 ← load_checked (w * h) data (← get_element w h (int32 (pw - 2)) (int32 (ph + 2)))
  let in_t := bump p11 p in_t
  let p12 ← load_checked (w * h) data (← get_element w h (int32 (pw - 3)) (int32 (ph + 1)))
  let in_t := bump p12 p in_t
  let p14 ← load_checked (w * h) data (← get_element w h (int32 (pw - 3)) (int32 (ph - 1)))
  let in_t := bump p14 p in_t
  let p15 ← load_checked (w * h) data (← get_element w h (int32 (pw - 2)) (int32 (ph - 2)))
  let in_t := bump p15 p in_t
  let p16 ← load_checked (w * h) data (← get_element w h (int32 (pw - 1)) (int32 (ph - 3)))
  let in_t := bump p16 p in_t
  if in_t.val > 12 then
    let point ← get_element w h pw ph
    -- an `int` sum divided by `16.0`: the quotient is exact in a double, and the
    -- conversion to `uint8_t` drops its fraction
    store_checked (w * h) res point
      (toU8 ((p1.val + p2.val + p3.val + p4.val + p5.val + p6.val + p7.val + p8.val +
              p9.val + p10.val + p11.val + p12.val + p13.val + p14.val + p15.val +
              p16.val) / 16))
  else
    return res

/-- The function `FAST_point_test (data, w, h, res)` on buffers of `w * h` elements, with
every access checked. -/
def FAST_point_test_checked (data : Buf) (w h : Int) (res : Buf) : Except String Buf :=
  (List.range w.toNat).foldlM
    (fun (res : Buf) (pw : Nat) =>
      (List.range h.toNat).foldlM
        (fun (res : Buf) (ph : Nat) =>
          FAST_point_body_checked data w h res (pw : Int) (ph : Int)) res)
    res

/-! ## The reference scorer of the specification -/

/-- The 16 ring offsets relative to `(x, y)`, clockwise from the top, as the specification
lists them. -/
def ring : List (Int × Int) :=
  [(0, -3), (1, -3), (2, -2), (3, -1), (3, 0), (3, 1), (2, 2), (1, 3),
   (0, 3), (-1, 3), (-2, 2), (-3, 1), (-3, 0), (-3, -1), (-2, -2), (-1, -3)]

/-- The four compass offsets: up, right, down, left at distance 3. -/
def compass : List (Int × Int) := [(0, -3), (3, 0), (0, 3), (-3, 0)]

/-- The offset of pixel `(x, y)` after clamping it to the nearest edge pixel. -/
def clamp_offset (w h x y : Int) : Int :=
  min (max x 0) (w - 1) + min (max y 0) (h - 1) * w

/-- The offset `get_element` computes for positive `width` and `height`. -/
def code_offset (w h pw ph : Int) : Int :=
  (if pw ≥ w then int32 (w - 1) else if pw < 0 then 0 else pw) +
    int32 ((if ph ≥ h then int32 (h - 1) else if ph < 0 then 0 else ph) * w)

/-- The width `w` and the height `h` are values of type `int`, and so is `(h - 1) * w`, the
offset at which the last row of a `w * h` image starts: no `int` operation of `get_element`
overflows. -/
def fits_int (w h : Int) : Prop :=
  w ≤ 2147483647 ∧ h ≤ 2147483647 ∧ (h - 1) * w ≤ 2147483647

/-- The edge-clamped sample of the image at `(x, y)`. -/
def sample (data : Buf) (w h x y : Int) : U8 := data (clamp_offset w h x y)

/-- Intensity `q` differs from the centre intensity `p` by more than 16, over the integers. -/
def differs (q p : U8) : Bool :=
  decide ((q.val : Int) - (p.val : Int) > 16 ∨ (p.val : Int) - (q.val : Int) > 16)

/-- The sample at offset `d` from `(x, y)` differs from the centre by more than 16. -/
def differs_at (data : Buf) (w h x y : Int) (d : Int × Int) : Bool :=
  differs (sample data w h (x + d.1) (y + d.2)) (sample data w h x y)

/-- How many of the 16 ring samples differ from the centre by more than 16. -/
def ring_count (data : Buf) (w h x y : Int) : Nat :=
  ring.countP (differs_at data w h x y)

/-- The sum `S` of the 16 ring samples. -/
def ring_sum (data : Buf) (w h x y : Int) : Nat :=
  (ring.map (fun d => (sample data w h (x + d.1) (y + d.2)).val)).sum

/-- The candidate (quick-reject) test: all four compass samples differ from the centre. -/
def candidate (data : Buf) (w h x y : Int) : Bool :=
  compass.all (differs_at data w h x y)

/-- Pixel `(x, y)` qualifies as a corner: it is a candidate and more than 12 of the 16 ring
samples differ from the centre. -/
def qualifies (data : Buf) (w h x y : Int) : Bool :=
  candidate data w h x y && decide (12 < ring_count data w h x y)

/-- The result buffer after one pass through the loop body at a pixel inside the image, as a
function of the reference scorer. -/
def point_update (data : Buf) (w h : Int) (res : Buf) (pw ph : Int) : Buf :=
  if qualifies data w h pw ph then
    store res (clamp_offset w h pw ph) (toU8 (ring_sum data w h pw ph / 16))
  else res

/-- The result buffer after the whole of `FAST_point_test`, as a function of the reference
scorer: the element at offset `i` belongs to pixel `(i % w, i / w)`. -/
def scored (data : Buf) (w h : Int) (res : Buf) : Buf :=
  fun i =>
    if 0 ≤ i ∧ i < w * h ∧ qualifies data w h (i % w) (i / w) = true then
      toU8 (ring_sum data w h (i % w) (i / w) / 16)
    else res i


/-! ## Concrete inputs -/

/-- A buffer of zeros. -/
def zero_buf : Buf := fun _ => 0

/-- A buffer whose bytes are all 255. -/
def full_buf : Buf := fun _ => 255

/-- The 8x8 image with background 100 in which the pixels (4,1), (7,4), (4,7) and (1,4), the
compass neighbours of (4,4), are 200. -/
def image_8x8 : Buf :=
  fun i => if i = 4 + 1 * 8 ∨ i = 7 + 4 * 8 ∨ i = 4 + 7 * 8 ∨ i = 1 + 4 * 8 then 200 else 100

/-- The 7x7 image that is 0 everywhere but at its centre (3,3), where it is 100. -/
def spike_7x7 : Buf := fun i => if i = 3 + 3 * 7 then 100 else 0

/-- A 1073741824 x 4 image: pixel (3,1) is 100, and so is every pixel of rows 2 and 3, which
lie at the offsets from 2147483648 on; every other byte, before the image too, is 0. -/
def wide_image : Buf :=
  fun i => if i = 3 + 1 * 1073741824 ∨ 2147483648 ≤ i then 100 else 0

/-- A memory that is 0 everywhere but at offset `3 - 2147483648`, before the image, where it
is 100. -/
def low_spike : Buf := fun i => if i = 3 - 2147483648 then 100 else 0

/-- A 1073741824 x 6 image that is 100 at pixel (3,0) and 0 everywhere else. -/
def alias_spike : Buf := fun i => if i = 3 + 0 * 1073741824 then 100 else 0

/-! ## The score map of `FAST_render_thread` -/

/-- A decoded picture, named by a number.  A frame slot (`AVFrame *`) holds `some` picture,
or `none` after `av_frame_unref`. -/
abbrev Frame := Nat

/-- What `avcodec_receive_frame` answers after a video packet has been sent. -/
inductive Decoded where
  /-- A picture (return value `0`). -/
  | frame (f : Frame)
  /-- The answer `AVERROR(EAGAIN)`: needs more input. -/
  | again
  /-- Any other negative code: a decode failure. -/
  | failure
  deriving DecidableEq

/-- One answer of `av_read_frame`. -/
inductive Packet where
  /-- A packet of a stream other than `videoStream`. -/
  | other
  /-- A packet of the video stream, with what the codec answers to it. -/
  | video (out : Decoded)
  /-- A negative code other than `AVERROR_EOF`. -/
  | broken
  deriving DecidableEq

/-- The part of `avCtx` the loops of `main` work on. -/
structure avCtx where
  /-- Behind `formatCtx`: the packets not read yet; `AVERROR_EOF` once it is empty. -/
  input : List Packet
  /-- The packet `pkt` holds; `none` is a blank packet. -/
  pkt : Option Packet
  /-- Behind `codecCtx`: a blank (flush) packet has been sent. -/
  draining : Bool
  /-- Behind `codecCtx`: the pictures handed out, one per call, once the codec is flushed. -/
  buffered : List Frame
  firstFrame : Option Frame
  secondFrame : Option Frame
  deriving DecidableEq

/-- The `do ... while` loop of `get_one_valid_pkt` on the packets not read yet: the return
value, the content of `pkt` and the packets left; `none` for `DIE_AV`. -/
def read_valid_pkt : List Packet → Option (Nat × Option Packet × List Packet)
  | [] => some (1, none, [])
  | Packet.broken :: _ => none
  | Packet.video out :: rest => some (0, some (Packet.video out), rest)
  | Packet.other :: rest => read_valid_pkt rest

/-- The function `get_one_valid_pkt (avctx)`. -/
def get_one_valid_pkt (ctx : avCtx) : Except String (Nat × avCtx) :=
  match read_valid_pkt ctx.input with
  | none => .error "av_read_frame"
  | some (r, pkt, rest) => .ok (r, { ctx with input := rest, pkt := pkt })

/-- The function `get_one_frame (avctx, avctx->secondFrame)`.  `avcodec_send_packet` refuses a
packet once the codec is flushed, and takes a blank packet as the request to flush;
`avcodec_receive_frame` unreferences the frame before anything else. -/
def get_one_frame (ctx : avCtx) : Except String (Nat × avCtx) :=
  if ctx.draining then .error "avcodec_send_packet"
  else
    match ctx.pkt with
    | none =>
      match ctx.buffered with
      | f :: fs =>
        .ok (0, { ctx with draining := true, buffered := fs, secondFrame := some f })
      | [] => .ok (2, { ctx with draining := true, secondFrame := none })
    | some (Packet.video (Decoded.frame f)) => .ok (0, { ctx with secondFrame := some f })
    | some (Packet.video Decoded.again) => .ok (1, { ctx with secondFrame := none })
    | some (Packet.video Decoded.failure) => .error "avcodec_receive_frame"
    | some _ => .error "avcodec_send_packet"

/-- How a run of `main` ends: the pairs (current, next) it composed and presented, in
order, and the exit code (`0` for `return 0`, `1` for a `DIE`). -/
structure Run where
  presented : List (Option Frame × Option Frame)
  code : Nat
  deriving DecidableEq

/-- The priming loop `do ... while (!eof && eagain)` of `main`, run for at most `fuel`
iterations: `none` when the fuel runs out. -/
def priming_loop : Nat → avCtx → Option (Except String avCtx)
  | 0, _ => none
  | fuel + 1, ctx =>
    match get_one_valid_pkt ctx with
    | .error e => some (.error e)
    | .ok (eof, ctx) =>
      match get_one_frame ctx with
      | .error e => some (.error e)
      | .ok (eagain, ctx) =>
        let ctx := { ctx with pkt := none }
        if eof = 0 ∧ eagain ≠ 0 then priming_loop fuel ctx else some (.ok ctx)

/-- The loop `while (running)` of `main`, run for at most `fuel` iterations.  `events` tells,
poll by poll, whether the event is `SDL_QUIT`; `shown` are the pairs presented so far. -/
def main_loop : Nat → List Bool → avCtx → List (Option Frame × Option Frame) → Option Run
  | 0, _, _, _ => none
  | fuel + 1, events, ctx, shown =>
    if events.headD false then some ⟨shown, 0⟩
    else
      -- av_frame_unref (firstFrame); av_frame_move_ref (firstFrame, secondFrame)
      let ctx := { ctx with firstFrame := ctx.secondFrame, secondFrame := none }
      match get_one_valid_pkt ctx with
      | .error _ => some ⟨shown, 1⟩
      | .ok (eof, ctx) =>
        let running := decide (eof = 0)
        match get_one_frame ctx with
        | .error _ => some ⟨shown, 1⟩
        | .ok (status, ctx) =>
          if status = 1 then
            -- continue
            if running then main_loop fuel events.tail ctx shown else some ⟨shown, 0⟩
          else if status = 2 then some ⟨shown, 0⟩
          else
            -- the four quadrants are composed from firstFrame and secondFrame and presented
            let shown := shown ++ [(ctx.firstFrame, ctx.secondFrame)]
            let ctx := { ctx with firstFrame := none, pkt := none }
            if running then main_loop fuel events.tail ctx shown else some ⟨shown, 0⟩

/-- The priming loop, run for at most `fp` iterations, followed by the main loop, run for at
most `fm` iterations. -/
def main_with (fp fm : Nat) (events : List Bool) (ctx : avCtx) : Option Run :=
  match priming_loop fp ctx with
  | none => none
  | some (.error _) => some ⟨[], 1⟩
  | some (.ok ctx) => main_loop fm events ctx []

/-- The decode part of `main`: the priming loop, then the main loop.  Every iteration of
either loop that is followed by another one has read a packet, so `input.length + 1`
iterations are enough for each. -/
def main (input : List Packet) (buffered : List Frame) (events : List Bool) : Option Run :=
  main_with (input.length + 1) (input.length + 1) events
    ⟨input, none, false, buffered, none, none⟩

/-- The pairs of neighbours of a list of frames: `(f1, f2), (f2, f3), ...`. -/
def pairs : List Frame → List (Option Frame × Option Frame)
  | a :: b :: l => (some a, some b) :: pairs (b :: l)
  | _ => []

/-- The pictures a list of packets decodes to, in order. -/
def frames_of : List Packet → List Frame
  | [] => []
  | Packet.video (Decoded.frame f) :: rest => f :: frames_of rest
  | _ :: rest => frames_of rest

/-! ## Lemmas on `get_element` and the threshold test -/

theorem clamp_eq_min_max {n : Int} (hn : 0 < n) (a : Int) :
    (if a ≥ n then n - 1 else if a < 0 then 0 else a) = min (max a 0) (n - 1) := by
  split_ifs <;> omega

theorem int32_eq_self {z : Int} (h1 : -2147483648 ≤ z) (h2 : z ≤ 2147483647) :
    int32 z = z := by
  unfold int32
  omega

theorem get_element_code {w h : Int} (hw : 0 < w) (hh : 0 < h) (pw ph : Int) :
    get_element w h pw ph = .ok (code_offset w h pw ph) := by
  unfold get_element code_offset
  rw [if_neg (by omega), if_neg (by omega)]

theorem code_offset_eq_clamp {w h : Int} (hw : 0 < w) (hh : 0 < h) (hf : fits_int w h)
    (pw ph : Int) : code_offset w h pw ph = clamp_offset w h pw ph := by
  obtain ⟨hwi, hhi, hb⟩ := hf
  unfold code_offset clamp_offset
  rw [int32_eq_self (z := w - 1) (by omega) (by omega),
    int32_eq_self (z := h - 1) (by omega) (by omega), clamp_eq_min_max hw, clamp_eq_min_max hh]
  have h0 : 0 ≤ min (max ph 0) (h - 1) := by omega
  have h1 : min (max ph 0) (h - 1) ≤ h - 1 := by omega
  have h2 : 0 ≤ min (max ph 0) (h - 1) * w := Int.mul_nonneg h0 (by omega)
  have h3 : min (max ph 0) (h - 1) * w ≤ (h - 1) * w :=
    Int.mul_le_mul_of_nonneg_right h1 (by omega)
  rw [int32_eq_self (by omega) (by omega)]

theorem get_element_ok {w h : Int} (hw : 0 < w) (hh : 0 < h) (hf : fits_int w h)
    (pw ph : Int) : get_element w h pw ph = .ok (clamp_offset w h pw ph) := by
  rw [get_element_code hw hh, code_offset_eq_clamp hw hh hf]

theorem band_test_eq_differs (q p : U8) : band_test q p = differs q p := by
  have hq := q.isLt
  have hp := p.isLt
  unfold band_test differs int32 t
  rw [Bool.eq_iff_iff]
  simp only [Bool.or_eq_true, decide_eq_true_eq]
  have ht : ((16 : U8).val : Int) = 16 := rfl
  rw [ht]
  omega


theorem bump_val (q p in_t : U8) :
    (bump q p in_t).val = (in_t.val + (differs q p).toNat) % 256 := by
  have h := in_t.isLt
  unfold bump
  rw [band_test_eq_differs]
  cases differs q p
  · simp only [Bool.false_eq_true, if_false, Bool.toNat_false, Nat.add_zero]
    omega
  · simp only [if_true, Bool.toNat_true, toU8]

theorem countP_cons_toNat {α : Type} (f : α → Bool) (a : α) (l : List α) :
    (a :: l).countP f = l.countP f + (f a).toNat := by
  rw [List.countP_cons]
  cases f a <;> simp


theorem int_add_neg_lit (a : Int) :
    a + 0 = a ∧ a + -3 = a - 3 ∧ a + -2 = a - 2 ∧ a + -1 = a - 1 := by
  omega

theorem ring_sum_eq (data : Buf) (w h x y : Int) :
    ring_sum data w h x y =
      (sample data w h x (y - 3)).val + (sample data w h (x + 1) (y - 3)).val +
      (sample data w h (x + 2) (y - 2)).val + (sample data w h (x + 3) (y - 1)).val +
      (sample data w h (x + 3) y).val + (sample data w h (x + 3) (y + 1)).val +
      (sample data w h (x + 2) (y + 2)).val + (sample data w h (x + 1) (y + 3)).val +
      (sample data w h x (y + 3)).val + (sample data w h (x - 1) (y + 3)).val +
      (sample data w h (x - 2) (y + 2)).val + (sample data w h (x - 3) (y + 1)).val +
      (sample data w h (x - 3) y).val + (sample data w h (x - 3) (y - 1)).val +
      (sample data w h (x - 2) (y - 2)).val + (sample data w h (x - 1) (y - 3)).val := by
  simp only [ring_sum, ring, List.map_cons, List.map_nil, List.sum_cons, List.sum_nil,
    int_add_neg_lit]
  omega

theorem candidate_eq (data : Buf) (w h x y : Int) :
    candidate data w h x y =
      (differs (sample data w h x (y - 3)) (sample data w h x y) &&
       differs (sample data w h (x + 3) y) (sample data w h x y) &&
       differs (sample data w h x (y + 3)) (sample data w h x y) &&
       differs (sample data w h (x - 3) y) (sample data w h x y)) := by
  simp only [candidate, compass, List.all_cons, List.all_nil, differs_at, int_add_neg_lit,
    Bool.and_true, Bool.and_assoc]

theorem ring_count_eq (data : Buf) (w h x y : Int) :
    ring_count data w h x y =
      (differs (sample data w h x (y - 3)) (sample data w h x y)).toNat +
      (differs (sample data w h (x + 1) (y - 3)) (sample data w h x y)).toNat +
      (differs (sample data w h (x + 2) (y - 2)) (sample data w h x y)).toNat +
      (differs (sample data w h (x + 3) (y - 1)) (sample data w h x y)).toNat +
      (differs (sample data w h (x + 3) y) (sample data w h x y)).toNat +
      (differs (sample data w h (x + 3) (y + 1)) (sample data w h x y)).toNat +
      (differs (sample data w h (x + 2) (y + 2)) (sample data w h x y)).toNat +
      (differs (sample data w h (x + 1) (y + 3)) (sample data w h x y)).toNat +
      (differs (sample data w h x (y + 3)) (sample data w h x y)).toNat +
      (differs (sample data w h (x - 1) (y + 3)) (sample data w h x y)).toNat +
      (differs (sample data w h (x - 2) (y + 2)) (sample data w h x y)).toNat +
      (differs (sample data w h (x - 3) (y + 1)) (sample data w h x y)).toNat +
      (differs (sample data w h (x - 3) y) (sample data w h x y)).toNat +
      (differs (sample data w h (x - 3) (y - 1)) (sample data w h x y)).toNat +
      (differs (sample data w h (x - 2) (y - 2)) (sample data w h x y)).toNat +
      (differs (sample data w h (x - 1) (y - 3)) (sample data w h x y)).toNat := by
  simp only [ring_count, ring, countP_cons_toNat, List.countP_nil, differs_at,
    int_add_neg_lit]
  omega


theorem in_t_chain (t2 t3 t4 t6 t7 t8 t10 t11 t12 t14 t15 t16 : Nat)
    (h2 : t2 ≤ 1) (h3 : t3 ≤ 1) (h4 : t4 ≤ 1) (h6 : t6 ≤ 1) (h7 : t7 ≤ 1) (h8 : t8 ≤ 1)
    (h10 : t10 ≤ 1) (h11 : t11 ≤ 1) (h12 : t12 ≤ 1) (h14 : t14 ≤ 1) (h15 : t15 ≤ 1)
    (h16 : t16 ≤ 1) :
    ((((((((((((4 + t2) % 256 + t3) % 256 + t4) % 256 + t6) % 256 + t7) % 256 + t8) % 256 +
      t10) % 256 + t11) % 256 + t12) % 256 + t14) % 256 + t15) % 256 + t16) % 256 =
      4 + t2 + t3 + t4 + t6 + t7 + t8 + t10 + t11 + t12 + t14 + t15 + t16 := by
  rw [Nat.mod_eq_of_lt (show 4 + t2 < 256 by omega)]
  rw [Nat.mod_eq_of_lt (show 4 + t2 + t3 < 256 by omega)]
  rw [Nat.mod_eq_of_lt (show 4 + t2 + t3 + t4 < 256 by omega)]
  rw [Nat.mod_eq_of_lt (show 4 + t2 + t3 + t4 + t6 < 256 by omega)]
  rw [Nat.mod_eq_of_lt (show 4 + t2 + t3 + t4 + t6 + t7 < 256 by omega)]
  rw [Nat.mod_eq_of_lt (show 4 + t2 + t3 + t4 + t6 + t7 + t8 < 256 by omega)]
  rw [Nat.mod_eq_of_lt (show 4 + t2 + t3 + t4 + t6 + t7 + t8 + t10 < 256 by omega)]
  rw [Nat.mod_eq_of_lt (show 4 + t2 + t3 + t4 + t6 + t7 + t8 + t10 + t11 < 256 by omega)]
  rw [Nat.mod_eq_of_lt (show 4 + t2 + t3 + t4 + t6 + t7 + t8 + t10 + t11 + t12 < 256 by omega)]
  rw [Nat.mod_eq_of_lt (show 4 + t2 + t3 + t4 + t6 + t7 + t8 + t10 + t11 + t12 + t14 < 256 by omega)]
  rw [Nat.mod_eq_of_lt (show 4 + t2 + t3 + t4 + t6 + t7 + t8 + t10 + t11 + t12 + t14 + t15 < 256 by omega)]
  rw [Nat.mod_eq_of_lt (show 4 + t2 + t3 + t4 + t6 + t7 + t8 + t10 + t11 + t12 + t14 + t15 + t16 < 256 by omega)]

theorem ite_candidate_count (c : Bool) (n m : Nat) (A B : Buf)
    (hnm : c = true → (n > 12 ↔ 12 < m)) :
    (if (!c) = true then (Except.ok B : Except String Buf)
      else if n > 12 then Except.ok A else Except.ok B) =
    Except.ok (if (c && decide (12 < m)) = true then A else B) := by
  cases c
  · simp
  · have h := hnm rfl
    by_cases hn : n > 12
    · have hm := h.mp hn
      simp [hn, hm]
    · have hm : ¬ 12 < m := fun hm => hn (h.mpr hm)
      simp [hn, hm]


theorem differs_self (p : U8) : differs p p = false := by
  simp [differs]

theorem not_candidate_of_compass_eq (data : Buf) (w h x y : Int)
    (hc : sample data w h x (y - 3) = sample data w h x y ∨
          sample data w h (x + 3) y = sample data w h x y ∨
          sample data w h x (y + 3) = sample data w h x y ∨
          sample data w h (x - 3) y = sample data w h x y) :
    candidate data w h x y = false := by
  rw [candidate_eq]
  rcases hc with hc | hc | hc | hc <;> rw [hc, differs_self] <;> simp

theorem not_qualifies_of_not_candidate {data : Buf} {w h x y : Int}
    (hc : candidate data w h x y = false) : qualifies data w h x y = false := by
  simp [qualifies, hc]

theorem border_offset_eq {w h x y : Int} (hx0 : 0 ≤ x) (hxw : x < w) (hy0 : 0 ≤ y)
    (hyh : y < h) (hb : x = 0 ∨ x = w - 1 ∨ y = 0 ∨ y = h - 1) :
    clamp_offset w h x (y - 3) = clamp_offset w h x y ∨
    clamp_offset w h (x + 3) y = clamp_offset w h x y ∨
    clamp_offset w h x (y + 3) = clamp_offset w h x y ∨
    clamp_offset w h (x - 3) y = clamp_offset w h x y := by
  unfold clamp_offset
  rcases hb with hb | hb | hb | hb
  · right; right; right
    have e : min (max (x - 3) 0) (w - 1) = min (max x 0) (w - 1) := by omega
    rw [e]
  · right; left
    have e : min (max (x + 3) 0) (w - 1) = min (max x 0) (w - 1) := by omega
    rw [e]
  · left
    have e : min (max (y - 3) 0) (h - 1) = min (max y 0) (h - 1) := by omega
    rw [e]
  · right; right; left
    have e : min (max (y + 3) 0) (h - 1) = min (max y 0) (h - 1) := by omega
    rw [e]

theorem FAST_point_body_not_candidate {w h : Int} (hw : 0 < w) (hh : 0 < h)
    (data res : Buf) (pw ph : Int)
    (hc : code_offset w h pw (int32 (ph - 3)) = code_offset w h pw ph ∨
          code_offset w h (int32 (pw + 3)) ph = code_offset w h pw ph ∨
          code_offset w h pw (int32 (ph + 3)) = code_offset w h pw ph ∨
          code_offset w h (int32 (pw - 3)) ph = code_offset w h pw ph) :
    FAST_point_body data w h res pw ph = .ok res := by
  unfold FAST_point_body
  simp only [get_element_code hw hh, bind, Except.bind, pure, Except.pure,
    band_test_eq_differs]
  rw [if_pos]
  rcases hc with hc | hc | hc | hc <;> rw [hc, differs_self] <;> simp

theorem int_limits_border {w h pw ph : Int} (hw : 0 < w) (hh : 0 < h) (hf : fits_int w h)
    (hx0 : 0 ≤ pw) (hxw : pw < w) (hy0 : 0 ≤ ph) (hyh : ph < h)
    (hA : ¬ (w + 2 ≤ 2147483647 ∧ h + 2 ≤ 2147483647)) :
    pw = 0 ∨ ph = 0 ∨ (ph = h - 1 ∧ h + 2 ≤ 2147483647) := by
  obtain ⟨hwi, hhi, hb⟩ := hf
  by_cases hw2 : w + 2 ≤ 2147483647
  · have hh2 : ¬ h + 2 ≤ 2147483647 := fun hc => hA ⟨hw2, hc⟩
    have hw1 : w = 1 := by
      by_contra hne
      have h1 : (h - 1) * 2 ≤ (h - 1) * w := Int.mul_le_mul_of_nonneg_left (by omega) (by omega)
      omega
    left
    omega
  · have hh2 : h ≤ 2 := by
      by_contra hne
      have h1 : 2 * w ≤ (h - 1) * w := Int.mul_le_mul_of_nonneg_right (by omega) (by omega)
      omega
    right
    omega

theorem FAST_point_body_eq {w h : Int} (hw : 0 < w) (hh : 0 < h) (hf : fits_int w h)
    (data res : Buf) {pw ph : Int} (hx0 : 0 ≤ pw) (hxw : pw < w) (hy0 : 0 ≤ ph)
    (hyh : ph < h) :
    FAST_point_body data w h res pw ph =
      .ok (if qualifies data w h pw ph then
             store res (clamp_offset w h pw ph) (toU8 (ring_sum data w h pw ph / 16))
           else res) := by
  by_cases hA : w + 2 ≤ 2147483647 ∧ h + 2 ≤ 2147483647
  · obtain ⟨hw2, hh2⟩ := hA
    have ex1 : int32 (pw + 1) = pw + 1 := int32_eq_self (by omega) (by omega)
    have ex2 : int32 (pw + 2) = pw + 2 := int32_eq_self (by omega) (by omega)
    have ex3 : int32 (pw + 3) = pw + 3 := int32_eq_self (by omega) (by omega)
    have ex4 : int32 (pw - 1) = pw - 1 := int32_eq_self (by omega) (by omega)
    have ex5 : int32 (pw - 2) = pw - 2 := int32_eq_self (by omega) (by omega)
    have ex6 : int32 (pw - 3) = pw - 3 := int32_eq_self (by omega) (by omega)
    have ey1 : int32 (ph + 1) = ph + 1 := int32_eq_self (by omega) (by omega)
    have ey2 : int32 (ph + 2) = ph + 2 := int32_eq_self (by omega) (by omega)
    have ey3 : int32 (ph + 3) = ph + 3 := int32_eq_self (by omega) (by omega)
    have ey4 : int32 (ph - 1) = ph - 1 := int32_eq_self (by omega) (by omega)
    have ey5 : int32 (ph - 2) = ph - 2 := int32_eq_self (by omega) (by omega)
    have ey6 : int32 (ph - 3) = ph - 3 := int32_eq_self (by omega) (by omega)
    unfold FAST_point_body
    simp only [ex1, ex2, ex3, ex4, ex5, ex6, ey1, ey2, ey3, ey4, ey5, ey6,
      get_element_ok hw hh hf, bind, Except.bind, pure, Except.pure]
    simp only [qualifies, candidate_eq, ring_sum_eq, ring_count_eq, band_test_eq_differs]
    simp only [sample]
    refine ite_candidate_count _ _ _ _ _ ?_
    intro hc
    simp only [Bool.and_eq_true] at hc
    obtain ⟨⟨⟨h1, h5⟩, h9⟩, h13⟩ := hc
    have e4 : ((4 : U8).val) = 4 := rfl
    simp only [bump_val, e4, h1, h5, h9, h13, Bool.toNat_true]
    have b2 := Bool.toNat_le
      (differs (data (clamp_offset w h (pw + 1) (ph - 3))) (data (clamp_offset w h pw ph)))
    have b3 := Bool.toNat_le
      (differs (data (clamp_offset w h (pw + 2) (ph - 2))) (data (clamp_offset w h pw ph)))
    have b4 := Bool.toNat_le
      (differs (data (clamp_offset w h (pw + 3) (ph - 1))) (data (clamp_offset w h pw ph)))
    have b6 := Bool.toNat_le
      (differs (data (clamp_offset w h (pw + 3) (ph + 1))) (data (clamp_offset w h pw ph)))
    have b7 := Bool.toNat_le
      (differs (data (clamp_offset w h (pw + 2) (ph + 2))) (data (clamp_offset w h pw ph)))
    have b8 := Bool.toNat_le
      (differs (data (clamp_offset w h (pw + 1) (ph + 3))) (data (clamp_offset w h pw ph)))
    have b10 := Bool.toNat_le
      (differs (data (clamp_offset w h (pw - 1) (ph + 3))) (data (clamp_offset w h pw ph)))
    have b11 := Bool.toNat_le
      (differs (data (clamp_offset w h (pw - 2) (ph + 2))) (data (clamp_offset w h pw ph)))
    have b12 := Bool.toNat_le
      (differs (data (clamp_offset w h (pw - 3) (ph + 1))) (data (clamp_offset w h pw ph)))
    have b14 := Bool.toNat_le
      (differs (data (clamp_offset w h (pw - 3) (ph - 1))) (data (clamp_offset w h pw ph)))
    have b15 := Bool.toNat_le
      (differs (data (clamp_offset w h (pw - 2) (ph - 2))) (data (clamp_offset w h pw ph)))
    have b16 := Bool.toNat_le
      (differs (data (clamp_offset w h (pw - 1) (ph - 3))) (data (clamp_offset w h pw ph)))
    rw [in_t_chain _ _ _ _ _ _ _ _ _ _ _ _ b2 b3 b4 b6 b7 b8 b10 b11 b12 b14 b15 b16]
    omega
  · have hbord := int_limits_border hw hh hf hx0 hxw hy0 hyh hA
    have hwi := hf.1
    have hhi := hf.2.1
    have hcand : candidate data w h pw ph = false := by
      apply not_candidate_of_compass_eq
      unfold sample
      have hb : pw = 0 ∨ pw = w - 1 ∨ ph = 0 ∨ ph = h - 1 := by omega
      rcases border_offset_eq hx0 hxw hy0 hyh hb with ho | ho | ho | ho
      · left; rw [ho]
      · right; left; rw [ho]
      · right; right; left; rw [ho]
      · right; right; right; rw [ho]
    rw [not_qualifies_of_not_candidate hcand]
    simp only [Bool.false_eq_true, if_false]
    apply FAST_point_body_not_candidate hw hh
    simp only [code_offset_eq_clamp hw hh hf]
    unfold clamp_offset
    rcases hbord with hb | hb | ⟨hb, hh2⟩
    · right; right; right
      have e : min (max (int32 (pw - 3)) 0) (w - 1) = min (max pw 0) (w - 1) := by
        rw [int32_eq_self (by omega) (by omega)]
        omega
      rw [e]
    · left
      have e : min (max (int32 (ph - 3)) 0) (h - 1) = min (max ph 0) (h - 1) := by
        rw [int32_eq_self (by omega) (by omega)]
        omega
      rw [e]
    · right; right; left
      have e : min (max (int32 (ph + 3)) 0) (h - 1) = min (max ph 0) (h - 1) := by
        rw [int32_eq_self (by omega) (by omega)]
        omega
      rw [e]


/-! ## The two loops of `FAST_point_test` -/

theorem foldlM_ok_eq_foldl {α : Type} (f : Buf → α → Except String Buf) (g : Buf → α → Buf)
    (l : List α) (hf : ∀ s a, a ∈ l → f s a = .ok (g s a)) (s : Buf) :
    l.foldlM f s = .ok (l.foldl g s) := by
  induction l generalizing s with
  | nil => rfl
  | cons a l ih =>
    rw [List.foldlM_cons, hf s a (List.mem_cons_self a l)]
    exact ih (fun s b hb => hf s b (List.mem_cons_of_mem a hb)) (g s a)

theorem foldl_range_hit (g : Buf → Nat → Buf) (hit : Nat → Int → Prop) (val : Int → U8)
    (n : Nat)
    (hg : ∀ res k, k < n → ∀ i,
      (hit k i → g res k i = val i) ∧ (¬ hit k i → g res k i = res i))
    (res : Buf) (i : Int) :
    ((∃ k, k < n ∧ hit k i) → (List.range n).foldl g res i = val i) ∧
    ((¬ ∃ k, k < n ∧ hit k i) → (List.range n).foldl g res i = res i) := by
  suffices H : ∀ m, m ≤ n →
      ((∃ k, k < m ∧ hit k i) → (List.range m).foldl g res i = val i) ∧
      ((¬ ∃ k, k < m ∧ hit k i) → (List.range m).foldl g res i = res i) from H n (Nat.le_refl n)
  intro m
  induction m with
  | zero =>
    intro _
    constructor
    · rintro ⟨k, hk, _⟩
      omega
    · intro _
      rfl
  | succ m ih =>
    intro hm
    have ihm := ih (by omega)
    have hgm := hg ((List.range m).foldl g res) m (by omega) i
    rw [List.range_succ, List.foldl_append]
    simp only [List.foldl_cons, List.foldl_nil]
    constructor
    · rintro ⟨k, hk, hki⟩
      by_cases hmi : hit m i
      · exact hgm.1 hmi
      · rw [hgm.2 hmi]
        have hkm : k ≠ m := fun e => hmi (e ▸ hki)
        exact ihm.1 ⟨k, by omega, hki⟩
    · intro hno
      have hmi : ¬ hit m i := fun hmi => hno ⟨m, by omega, hmi⟩
      rw [hgm.2 hmi]
      exact ihm.2 (fun ⟨k, hk, hki⟩ => hno ⟨k, by omega, hki⟩)


theorem clamp_offset_inside {w h x y : Int} (hx0 : 0 ≤ x) (hxw : x < w) (hy0 : 0 ≤ y)
    (hyh : y < h) : clamp_offset w h x y = x + y * w := by
  unfold clamp_offset
  rw [max_eq_left hx0, max_eq_left hy0, min_eq_left (by omega), min_eq_left (by omega)]

theorem offset_emod {w x y : Int} (hx0 : 0 ≤ x) (hxw : x < w) : (x + y * w) % w = x := by
  rw [Int.add_mul_emod_self, Int.emod_eq_of_lt hx0 hxw]

theorem offset_ediv {w x y : Int} (hx0 : 0 ≤ x) (hxw : x < w) : (x + y * w) / w = y := by
  rw [Int.add_mul_ediv_right _ _ (by omega), Int.ediv_eq_zero_of_lt hx0 hxw, Int.zero_add]

theorem offset_bounds {w h x y : Int} (hx0 : 0 ≤ x) (hxw : x < w) (hy0 : 0 ≤ y)
    (hyh : y < h) : 0 ≤ x + y * w ∧ x + y * w < w * h := by
  have h1 : 0 ≤ y * w := Int.mul_nonneg hy0 (by omega)
  have h2 : y * w ≤ (h - 1) * w := Int.mul_le_mul_of_nonneg_right (by omega) (by omega)
  have h3 : (h - 1) * w = w * h - w := by ring
  constructor <;> omega

theorem point_update_apply {w h : Int} (data res : Buf) {pw ph : Int} (hx0 : 0 ≤ pw)
    (hxw : pw < w) (hy0 : 0 ≤ ph) (hyh : ph < h) (i : Int) :
    ((qualifies data w h pw ph = true ∧ i = pw + ph * w) →
        point_update data w h res pw ph i = toU8 (ring_sum data w h (i % w) (i / w) / 16)) ∧
    ((¬ (qualifies data w h pw ph = true ∧ i = pw + ph * w)) →
        point_update data w h res pw ph i = res i) := by
  unfold point_update
  rw [clamp_offset_inside hx0 hxw hy0 hyh]
  constructor
  · rintro ⟨hq, hi⟩
    rw [if_pos hq, hi, offset_emod hx0 hxw, offset_ediv hx0 hxw]
    simp only [store, if_true]
  · intro hn
    by_cases hq : qualifies data w h pw ph = true
    · rw [if_pos hq]
      have hi : ¬ i = pw + ph * w := fun hi => hn ⟨hq, hi⟩
      simp only [store, if_neg hi]
    · rw [if_neg hq]

theorem FAST_point_test_eq {w h : Int} (hw : 0 < w) (hh : 0 < h) (hf : fits_int w h)
    (data res : Buf) :
    FAST_point_test data w h res = .ok (scored data w h res) := by
  unfold FAST_point_test
  have inner : ∀ (s : Buf) (pw : Nat), pw ∈ List.range w.toNat →
      (List.range h.toNat).foldlM
        (fun (res : Buf) (ph : Nat) => FAST_point_body data w h res (pw : Int) (ph : Int)) s =
      .ok ((List.range h.toNat).foldl
        (fun (res : Buf) (ph : Nat) => point_update data w h res (pw : Int) (ph : Int)) s) := by
    intro s pw hpw
    apply foldlM_ok_eq_foldl
    intro s' ph hph
    rw [List.mem_range] at hpw hph
    rw [FAST_point_body_eq hw hh hf data s' (by omega) (by omega) (by omega) (by omega)]
    rfl
  rw [foldlM_ok_eq_foldl _ _ _ (fun s pw hpw => inner s pw hpw)]
  congr 1
  funext i
  have hcol : ∀ (s : Buf) (pw : Nat), pw < w.toNat → ∀ j : Int,
      ((∃ ph, ph < h.toNat ∧ (qualifies data w h (pw : Int) (ph : Int) = true ∧
          j = (pw : Int) + (ph : Int) * w)) →
        (List.range h.toNat).foldl
          (fun (res : Buf) (ph : Nat) => point_update data w h res (pw : Int) (ph : Int)) s j =
          toU8 (ring_sum data w h (j % w) (j / w) / 16)) ∧
      ((¬ ∃ ph, ph < h.toNat ∧ (qualifies data w h (pw : Int) (ph : Int) = true ∧
          j = (pw : Int) + (ph : Int) * w)) →
        (List.range h.toNat).foldl
          (fun (res : Buf) (ph : Nat) => point_update data w h res (pw : Int) (ph : Int)) s j = s j) := by
    intro s pw hpw j
    exact foldl_range_hit _
      (fun ph j => qualifies data w h (pw : Int) (ph : Int) = true ∧
        j = (pw : Int) + (ph : Int) * w)
      (fun j => toU8 (ring_sum data w h (j % w) (j / w) / 16)) h.toNat
      (fun s' ph hph j' => point_update_apply data s' (by omega) (by omega) (by omega)
        (by omega) j') s j
  have hall := foldl_range_hit _
      (fun pw j => ∃ ph, ph < h.toNat ∧ (qualifies data w h (pw : Int) (ph : Int) = true ∧
        j = (pw : Int) + (ph : Int) * w))
      (fun j => toU8 (ring_sum data w h (j % w) (j / w) / 16)) w.toNat hcol res i
  unfold scored
  by_cases hi : 0 ≤ i ∧ i < w * h ∧ qualifies data w h (i % w) (i / w) = true
  · rw [if_pos hi]
    obtain ⟨hi0, hiw, hq⟩ := hi
    have hm0 : 0 ≤ i % w := Int.emod_nonneg i (by omega)
    have hmw : i % w < w := Int.emod_lt_of_pos i hw
    have hd0 : 0 ≤ i / w := Int.ediv_nonneg hi0 (by omega)
    have hdh : i / w < h := Int.ediv_lt_of_lt_mul hw (by rw [Int.mul_comm]; exact hiw)
    apply hall.1
    refine ⟨(i % w).toNat, by omega, (i / w).toNat, by omega, ?_, ?_⟩
    · rw [Int.toNat_of_nonneg hm0, Int.toNat_of_nonneg hd0]
      exact hq
    · rw [Int.toNat_of_nonneg hm0, Int.toNat_of_nonneg hd0]
      have := Int.emod_add_ediv i w
      rw [Int.mul_comm]
      omega
  · rw [if_neg hi]
    apply hall.2
    rintro ⟨pw, hpw, ph, hph, hq, hj⟩
    apply hi
    have hb := offset_bounds (w := w) (h := h) (x := (pw : Int)) (y := (ph : Int))
      (by omega) (by omega) (by omega) (by omega)
    rw [hj, offset_emod (by omega) (by omega), offset_ediv (by omega) (by omega)]
    exact ⟨hb.1, hb.2, hq⟩


/-! ## The score map pixel by pixel -/

theorem toU8_val_of_lt {n : Nat} (hn : n < 256) : (toU8 n).val = n :=
  Nat.mod_eq_of_lt hn

theorem ring_sum_le (data : Buf) (w h x y : Int) : ring_sum data w h x y ≤ 4080 := by
  rw [ring_sum_eq]
  have h1 := (sample data w h x (y - 3)).isLt
  have h2 := (sample data w h (x + 1) (y - 3)).isLt
  have h3 := (sample data w h (x + 2) (y - 2)).isLt
  have h4 := (sample data w h (x + 3) (y - 1)).isLt
  have h5 := (sample data w h (x + 3) y).isLt
  have h6 := (sample data w h (x + 3) (y + 1)).isLt
  have h7 := (sample data w h (x + 2) (y + 2)).isLt
  have h8 := (sample data w h (x + 1) (y + 3)).isLt
  have h9 := (sample data w h x (y + 3)).isLt
  have h10 := (sample data w h (x - 1) (y + 3)).isLt
  have h11 := (sample data w h (x - 2) (y + 2)).isLt
  have h12 := (sample data w h (x - 3) (y + 1)).isLt
  have h13 := (sample data w h (x - 3) y).isLt
  have h14 := (sample data w h (x - 3) (y - 1)).isLt
  have h15 := (sample data w h (x - 2) (y - 2)).isLt
  have h16 := (sample data w h (x - 1) (y - 3)).isLt
  omega

theorem score_val (data : Buf) (w h x y : Int) :
    (toU8 (ring_sum data w h x y / 16)).val = ring_sum data w h x y / 16 := by
  have := ring_sum_le data w h x y
  exact toU8_val_of_lt (by omega)

theorem qualifies_iff (data : Buf) (w h x y : Int) :
    qualifies data w h x y = true ↔
      (candidate data w h x y = true ∧ 12 < ring_count data w h x y) := by
  simp only [qualifies, Bool.and_eq_true, decide_eq_true_eq]

theorem clamp_offset_range {w h : Int} (hw : 0 < w) (hh : 0 < h) (x y : Int) :
    0 ≤ clamp_offset w h x y ∧ clamp_offset w h x y < w * h := by
  unfold clamp_offset
  exact offset_bounds (by omega) (by omega) (by omega) (by omega)

theorem scored_pixel {w h : Int} (data res : Buf) {x y : Int} (hx0 : 0 ≤ x) (hxw : x < w)
    (hy0 : 0 ≤ y) (hyh : y < h) :
    scored data w h res (x + y * w) =
      if qualifies data w h x y = true then toU8 (ring_sum data w h x y / 16)
      else res (x + y * w) := by
  have hb := offset_bounds hx0 hxw hy0 hyh
  unfold scored
  rw [offset_emod hx0 hxw, offset_ediv hx0 hxw]
  by_cases hq : qualifies data w h x y = true
  · rw [if_pos ⟨hb.1, hb.2, hq⟩, if_pos hq]
  · rw [if_neg (fun hc => hq hc.2.2), if_neg hq]

theorem scored_outside (data res : Buf) (w h : Int) {i : Int} (hi : i < 0 ∨ w * h ≤ i) :
    scored data w h res i = res i := by
  unfold scored
  rw [if_neg (fun hc => by omega)]

theorem sum16_div_le (B a1 a2 a3 a4 a5 a6 a7 a8 a9 a10 a11 a12 a13 a14 a15 a16 : Nat)
    (h1 : a1 ≤ B) (h2 : a2 ≤ B) (h3 : a3 ≤ B) (h4 : a4 ≤ B) (h5 : a5 ≤ B) (h6 : a6 ≤ B)
    (h7 : a7 ≤ B) (h8 : a8 ≤ B) (h9 : a9 ≤ B) (h10 : a10 ≤ B) (h11 : a11 ≤ B)
    (h12 : a12 ≤ B) (h13 : a13 ≤ B) (h14 : a14 ≤ B) (h15 : a15 ≤ B) (h16 : a16 ≤ B) :
    (a1 + a2 + a3 + a4 + a5 + a6 + a7 + a8 + a9 + a10 + a11 + a12 + a13 + a14 + a15 + a16) /
      16 ≤ B := by
  omega

theorem toU8_val_le (n : Nat) : (toU8 n).val ≤ n :=
  Nat.mod_le n 256

theorem FAST_point_body_shape {w h : Int} (hw : 0 < w) (hh : 0 < h) (data : Buf) (B : Nat)
    (hB : ∀ i, (data i).val ≤ B) (res : Buf) (pw ph : Int) :
    ∃ res', FAST_point_body data w h res pw ph = .ok res' ∧
      (res' = res ∨ ∃ v : U8, v.val ≤ B ∧ res' = store res (code_offset w h pw ph) v) := by
  unfold FAST_point_body
  simp only [get_element_code hw hh, bind, Except.bind, pure, Except.pure]
  split_ifs
  · exact ⟨_, rfl, Or.inl rfl⟩
  · refine ⟨_, rfl, Or.inr ⟨_, ?_, rfl⟩⟩
    refine Nat.le_trans (toU8_val_le _) ?_
    exact sum16_div_le B _ _ _ _ _ _ _ _ _ _ _ _ _ _ _ _ (hB _) (hB _) (hB _) (hB _) (hB _)
      (hB _) (hB _) (hB _) (hB _) (hB _) (hB _) (hB _) (hB _) (hB _) (hB _) (hB _)
  · exact ⟨_, rfl, Or.inl rfl⟩

theorem foldlM_invariant {α : Type} (step : Buf → α → Except String Buf) (P : Buf → Prop)
    (l : List α) (hstep : ∀ s a, a ∈ l → P s → ∃ s', step s a = .ok s' ∧ P s') (s : Buf)
    (hs : P s) : ∃ s', l.foldlM step s = .ok s' ∧ P s' := by
  induction l generalizing s with
  | nil => exact ⟨s, rfl, hs⟩
  | cons a l ih =>
    obtain ⟨s1, h1, hp1⟩ := hstep s a (List.mem_cons_self a l) hs
    rw [List.foldlM_cons, h1]
    exact ih (fun s b hb => hstep s b (List.mem_cons_of_mem a hb)) s1 hp1

theorem foldlM_range_establish (step : Buf → Nat → Except String Buf) (P : Buf → Prop)
    (n k : Nat) (hk : k < n)
    (htot : ∀ s i, i < n → ∃ s', step s i = .ok s')
    (hest : ∀ s, ∃ s', step s k = .ok s' ∧ P s')
    (hpres : ∀ s i, i < n → P s → ∃ s', step s i = .ok s' ∧ P s') (s : Buf) :
    ∃ s', (List.range n).foldlM step s = .ok s' ∧ P s' := by
  induction n with
  | zero => omega
  | succ n ih =>
    rw [List.range_succ, List.foldlM_append]
    by_cases hkn : k = n
    · obtain ⟨s1, h1, _⟩ := foldlM_invariant step (fun _ => True) (List.range n)
        (fun s i hi _ => by
          obtain ⟨s', hs'⟩ := htot s i (by rw [List.mem_range] at hi; omega)
          exact ⟨s', hs', trivial⟩) s trivial
      obtain ⟨s2, h2, hp2⟩ := hest s1
      refine ⟨s2, ?_, hp2⟩
      rw [h1]
      show List.foldlM step s1 [n] = Except.ok s2
      rw [List.foldlM_cons, ← hkn, h2]
      rfl
    · obtain ⟨s1, h1, hp1⟩ := ih (by omega) (fun s i hi => htot s i (by omega))
        (fun s i hi hp => hpres s i (by omega) hp)
      obtain ⟨s2, h2, hp2⟩ := hpres s1 n (by omega) hp1
      refine ⟨s2, ?_, hp2⟩
      rw [h1]
      show List.foldlM step s1 [n] = Except.ok s2
      rw [List.foldlM_cons, h2]
      rfl

theorem store_val_le (s : Buf) (off o : Int) (v : U8) (B : Nat) (hv : v.val ≤ B)
    (hs : (s o).val ≤ B) : (store s off v o).val ≤ B := by
  unfold store
  split_ifs
  · exact hv
  · exact hs

/-- With sizes above 0 the two loops return, whatever the sizes are.  When all bytes of
`data` are at most `B` and the loop body at pixel `(x0, y0)` stores a value at offset `o`,
the byte of the result at offset `o` is at most `B` in the end. -/
theorem FAST_point_test_written {w h : Int} (hw : 0 < w) (hh : 0 < h) (data : Buf) (B : Nat)
    (hB : ∀ i, (data i).val ≤ B) (x0 y0 : Nat) (hx : x0 < w.toNat) (hy : y0 < h.toNat)
    (o : Int)
    (hest : ∀ s, ∃ v : U8, v.val ≤ B ∧
      FAST_point_body data w h s (x0 : Int) (y0 : Int) = .ok (store s o v))
    (res : Buf) :
    ∃ res', FAST_point_test data w h res = .ok res' ∧ (res' o).val ≤ B := by
  have hbody_tot : ∀ (pw : Nat) (s : Buf) (ph : Nat),
      ∃ s', FAST_point_body data w h s (pw : Int) (ph : Int) = .ok s' := by
    intro pw s ph
    obtain ⟨s', hs', _⟩ := FAST_point_body_shape hw hh data B hB s (pw : Int) (ph : Int)
    exact ⟨s', hs'⟩
  have hbody_pres : ∀ (pw : Nat) (s : Buf) (ph : Nat), (s o).val ≤ B →
      ∃ s', FAST_point_body data w h s (pw : Int) (ph : Int) = .ok s' ∧ (s' o).val ≤ B := by
    intro pw s ph hs
    obtain ⟨s', hs', hor⟩ := FAST_point_body_shape hw hh data B hB s (pw : Int) (ph : Int)
    refine ⟨s', hs', ?_⟩
    rcases hor with rfl | ⟨v, hv, rfl⟩
    · exact hs
    · exact store_val_le s _ o v B hv hs
  have hcol_tot : ∀ (s : Buf) (pw : Nat), ∃ s', (List.range h.toNat).foldlM
      (fun (res : Buf) (ph : Nat) => FAST_point_body data w h res (pw : Int) (ph : Int)) s =
        .ok s' := by
    intro s pw
    obtain ⟨s', hs', _⟩ := foldlM_invariant _ (fun _ => True) (List.range h.toNat)
      (fun s ph _ _ => by
        obtain ⟨s', hs'⟩ := hbody_tot pw s ph
        exact ⟨s', hs', trivial⟩) s trivial
    exact ⟨s', hs'⟩
  have hcol_pres : ∀ (s : Buf) (pw : Nat), (s o).val ≤ B → ∃ s', (List.range h.toNat).foldlM
      (fun (res : Buf) (ph : Nat) => FAST_point_body data w h res (pw : Int) (ph : Int)) s =
        .ok s' ∧ (s' o).val ≤ B := by
    intro s pw hs
    exact foldlM_invariant _ (fun s => (s o).val ≤ B) (List.range h.toNat)
      (fun s ph _ hp => hbody_pres pw s ph hp) s hs
  have hcol_est : ∀ s : Buf, ∃ s', (List.range h.toNat).foldlM
      (fun (res : Buf) (ph : Nat) => FAST_point_body data w h res (x0 : Int) (ph : Int)) s =
        .ok s' ∧ (s' o).val ≤ B := by
    intro s
    refine foldlM_range_establish _ (fun s => (s o).val ≤ B) h.toNat y0 hy
      (fun s ph _ => hbody_tot x0 s ph) ?_ (fun s ph _ hp => hbody_pres x0 s ph hp) s
    intro s1
    obtain ⟨v, hv, hs1⟩ := hest s1
    refine ⟨_, hs1, ?_⟩
    simp only [store, if_true]
    exact hv
  unfold FAST_point_test
  exact foldlM_range_establish _ (fun s => (s o).val ≤ B) w.toNat x0 hx
    (fun s pw _ => hcol_tot s pw) hcol_est (fun s pw _ hp => hcol_pres s pw hp) res


/-! ## A uniform image, whatever its size -/

/-- C1, against the claim: a 1073741824 x 4 image, so that rows 2 and 3 start beyond
`INT_MAX`.  Pixel (3,1) is 100 like every pixel of rows 2 and 3, the rest is 0: its lower
compass sample (3,3) equals it and it does not qualify.  The code computes the offsets of
rows 2 and 3 by an overflowing `ph * width`, reads them before the image, where the bytes
are 0, takes (3,1) for a corner and stores a score in its element: that element held 255 and
holds at most 100 afterwards. -/
theorem FAST_point_test_overflow_scores_non_corner :
    candidate wide_image 1073741824 4 3 1 = false ∧
      ∃ res', FAST_point_test wide_image 1073741824 4 full_buf = .ok res' ∧
        (res' (3 + 1 * 1073741824)).val ≤ 100 ∧
        (full_buf (3 + 1 * 1073741824)).val = 255 := by
  obtain ⟨r, h1, h2⟩ := FAST_point_test_written (w := 1073741824) (h := 4) (by decide)
    (by decide) wide_image 100
    (fun i => by unfold wide_image; split_ifs <;> decide) 3 1 (by decide) (by decide)
    (3 + 1 * 1073741824) (fun s => ⟨0, by decide, by rfl⟩) full_buf
  exact ⟨by decide, r, h1, h2, rfl⟩

/-- C1, amended: for every width `w > 0` and height `h > 0` of type `int` with
`(h - 1) * w ≤ INT_MAX`, every image and every initial result buffer, `FAST_point_test`
returns, and afterwards the result at `(x, y)` is `S / 16` (rounded down), `S` the sum of the
16 edge-clamped ring samples, whenever all four compass samples differ from the centre by
more than 16 and more than 12 of the 16 ring samples do; at every other pixel, and at every
offset outside the image, the result buffer keeps its value. -/
theorem FAST_point_test_matches_reference (w h : Int) (hw : 0 < w) (hh : 0 < h)
    (hwi : w ≤ 2147483647) (hhi : h ≤ 2147483647) (hlast : (h - 1) * w ≤ 2147483647)
    (data res : Buf) :
    ∃ res', FAST_point_test data w h res = .ok res' ∧
      (∀ x y : Int, 0 ≤ x → x < w → 0 ≤ y → y < h →
        ((candidate data w h x y = true ∧ 12 < ring_count data w h x y) →
          (res' (x + y * w)).val = ring_sum data w h x y / 16) ∧
        (¬ (candidate data w h x y = true ∧ 12 < ring_count data w h x y) →
          res' (x + y * w) = res (x + y * w))) ∧
      (∀ i : Int, (i < 0 ∨ w * h ≤ i) → res' i = res i) := by
  refine ⟨scored data w h res, FAST_point_test_eq hw hh ⟨hwi, hhi, hlast⟩ data res, ?_, ?_⟩
  · intro x y hx0 hxw hy0 hyh
    rw [scored_pixel data res hx0 hxw hy0 hyh, ← qualifies_iff]
    constructor
    · intro hq
      rw [if_pos hq, score_val]
    · intro hq
      rw [if_neg hq]
  · intro i hi
    exact scored_outside data res w h hi

/-- Witness of C1 (amended) on the 8x8 image `image_8x8` and a result buffer of zeros: pixel
(4,1) qualifies and receives 100, pixel (4,4) does not and keeps its 0. -/
theorem FAST_point_test_matches_reference_witness :
    (0 : Int) < 8 ∧ ((8 : Int) - 1) * 8 ≤ 2147483647 ∧
      ∃ res', FAST_point_test image_8x8 8 8 zero_buf = .ok res' ∧
        (res' (4 + 1 * 8)).val = 100 ∧ res' (4 + 4 * 8) = zero_buf (4 + 4 * 8) := by
  obtain ⟨r, h1, h2, _⟩ :=
    FAST_point_test_matches_reference 8 8 (by decide) (by decide) (by decide) (by decide)
      (by decide) image_8x8 zero_buf
  refine ⟨by decide, by decide, r, h1, ?_, ?_⟩
  · rw [(h2 4 1 (by decide) (by decide) (by decide) (by decide)).1 (by decide)]
    decide
  · exact (h2 4 4 (by decide) (by decide) (by decide) (by decide)).2 (by decide)

/-- C2: the threshold test of `FAST_point_test`, `q - 16 > p || q + 16 < p` on `uint8_t`
operands promoted to `int`, is true exactly when `q - p > 16` or `p - q > 16` over the
integers, for every centre intensity `p` and neighbour intensity `q` in `0 .. 255`: nothing
wraps around. -/
theorem band_test_no_wraparound (q p : U8) :
    band_test q p = true ↔
      ((q.val : Int) - (p.val : Int) > 16 ∨ (p.val : Int) - (q.val : Int) > 16) := by
  rw [band_test_eq_differs]
  simp only [differs, decide_eq_true_eq]

/-- C3, against the claim: for width 1073741824 and height 4, the coordinates (0,3) lie
inside the image, but the `int` product `3 * 1073741824` overflows and `get_element`
returns the pointer `data - 1073741824`: an offset below 0, not `pw + ph * w`. -/
theorem get_element_overflow :
    get_element 1073741824 4 0 3 = .ok (-1073741824) ∧
      (-1073741824 : Int) < 0 ∧
      (-1073741824 : Int) ≠
        min (max 0 0) (1073741824 - 1) + min (max 3 0) (4 - 1) * 1073741824 :=
  ⟨rfl, by decide, by decide⟩

/-- C3, amended: for every width `w > 0` and height `h > 0` of type `int` with
`(h - 1) * w ≤ INT_MAX`, and all integers `pw`, `ph`, `get_element` addresses the element at
offset `min (max pw 0) (w-1) + min (max ph 0) (h-1) * w`, which lies in `[0, w*h)`; for
coordinates inside the image this is `pw + ph * w`. -/
theorem get_element_clamps (w h : Int) (hw : 0 < w) (hh : 0 < h)
    (hwi : w ≤ 2147483647) (hhi : h ≤ 2147483647) (hlast : (h - 1) * w ≤ 2147483647)
    (pw ph : Int) :
    get_element w h pw ph = .ok (min (max pw 0) (w - 1) + min (max ph 0) (h - 1) * w) ∧
    0 ≤ min (max pw 0) (w - 1) + min (max ph 0) (h - 1) * w ∧
    min (max pw 0) (w - 1) + min (max ph 0) (h - 1) * w < w * h ∧
    (0 ≤ pw → pw < w → 0 ≤ ph → ph < h → get_element w h pw ph = .ok (pw + ph * w)) := by
  have hf : fits_int w h := ⟨hwi, hhi, hlast⟩
  have hr := clamp_offset_range hw hh pw ph
  refine ⟨get_element_ok hw hh hf pw ph, hr.1, hr.2, ?_⟩
  intro hx0 hxw hy0 hyh
  rw [get_element_ok hw hh hf, clamp_offset_inside hx0 hxw hy0 hyh]

/-- Witness of C3 (amended) on a 4x3 image: `(-2, 7)` is clamped to `(0, 2)`, offset 8, and
`(3, 1)` is addressed as it is, at offset 7. -/
theorem get_element_clamps_witness :
    (0 : Int) < 4 ∧ (0 : Int) < 3 ∧ ((3 : Int) - 1) * 4 ≤ 2147483647 ∧
      get_element 4 3 (-2) 7 = .ok 8 ∧ get_element 4 3 3 1 = .ok 7 :=
  ⟨by decide, by decide, by decide,
    (get_element_clamps 4 3 (by decide) (by decide) (by decide) (by decide) (by decide)
      (-2) 7).1.trans rfl,
    ((get_element_clamps 4 3 (by decide) (by decide) (by decide) (by decide) (by decide)
      3 1).2.2.2 (by decide) (by decide) (by decide) (by decide)).trans rfl⟩

/-- Outside the result buffer a store can happen when `ph * width` overflows.  In the memory
`low_spike` the 1073741824 x 4 image is all 0 and one byte before it is 100.  The code reads
pixel (3,2) at that byte, takes it for a corner and stores a score through the result
pointer at offset `3 - 2147483648`: the byte there held 255 and holds at most 100
afterwards. -/
theorem uniform_image_store_before_buffer :
    ∃ res', FAST_point_test low_spike 1073741824 4 full_buf = .ok res' ∧
      (res' (3 - 2147483648)).val ≤ 100 ∧ (full_buf (3 - 2147483648)).val = 255 := by
  obtain ⟨r, h1, h2⟩ := FAST_point_test_written (w := 1073741824) (h := 4) (by decide)
    (by decide) low_spike 100
    (fun i => by unfold low_spike; split_ifs <;> decide) 3 2 (by decide) (by decide)
    (3 - 2147483648) (fun s => ⟨0, by decide, by rfl⟩) full_buf
  exact ⟨r, h1, h2, rfl⟩

/-- C5, against the claim: on the 8x8 image `image_8x8`, scored into a map of zeros, the score
map is 100 at pixel (4,1), a pixel other than (4,4) (and 100 at pixel (1,4) as well). -/
theorem image_8x8_nonzero_off_centre :
    ∃ m, FAST_point_test image_8x8 8 8 zero_buf = .ok m ∧
      (m (4 + 1 * 8)).val = 100 ∧ (m (1 + 4 * 8)).val = 100 := by
  refine ⟨scored image_8x8 8 8 zero_buf,
    FAST_point_test_eq (by decide) (by decide) ⟨by decide, by decide, by decide⟩ _ _, ?_, ?_⟩
  · decide
  · decide

/-- C5, amended: on the 8x8 image `image_8x8`, scored into a map of zeros, pixel (4,4) passes
the candidate test but does not qualify (4 of its 16 ring samples differ from it), and the
score map is 100 at the pixels (4,1) and (1,4) and 0 at every other pixel, (4,4)
included. -/
theorem image_8x8_score_map :
    ∃ m, FAST_point_test image_8x8 8 8 zero_buf = .ok m ∧
      candidate image_8x8 8 8 4 4 = true ∧ ring_count image_8x8 8 8 4 4 = 4 ∧
      qualifies image_8x8 8 8 4 4 = false ∧
      ∀ x y : Fin 8, (m ((x.val : Int) + (y.val : Int) * 8)).val =
        if (x.val = 4 ∧ y.val = 1) ∨ (x.val = 1 ∧ y.val = 4) then 100 else 0 := by
  refine ⟨scored image_8x8 8 8 zero_buf,
    FAST_point_test_eq (by decide) (by decide) ⟨by decide, by decide, by decide⟩ _ _,
    by decide, by decide, by decide, ?_⟩
  decide

/-! ## The score map of the frame worker: claim -/

/-- C9, against the claim: in the 7x7 image `spike_7x7`, scored into a map of zeros, the centre
pixel (3,3) qualifies as a corner, all 16 ring samples being 0 against its 100, and its
score, the mean of the ring, is 0. -/
theorem spike_7x7_corner_scores_zero :
    ∃ m, FAST_point_test spike_7x7 7 7 zero_buf = .ok m ∧
      qualifies spike_7x7 7 7 3 3 = true ∧ m (3 + 3 * 7) = 0 := by
  refine ⟨scored spike_7x7 7 7 zero_buf,
    FAST_point_test_eq (by decide) (by decide) ⟨by decide, by decide, by decide⟩ _ _,
    by decide, ?_⟩
  decide

/-- C9, amended: for every width `w > 0` and height `h > 0` of type `int` with
`(h - 1) * w ≤ INT_MAX`, in a score map written by `FAST_point_test` into a zero-initialised
buffer every element is a value in `[0, 255]`; the element of a pixel that does not qualify
is 0 and the element of a pixel that qualifies is `S / 16` (rounded down), `S` the sum of its
ring samples.  So a non-zero element means its pixel qualified, and the element of a
qualifying pixel is 0 exactly when `S < 16`. -/
theorem score_map_zero_background (w h : Int) (hw : 0 < w) (hh : 0 < h)
    (hwi : w ≤ 2147483647) (hhi : h ≤ 2147483647) (hlast : (h - 1) * w ≤ 2147483647)
    (data : Buf) :
    ∃ m, FAST_point_test data w h zero_buf = .ok m ∧
      ∀ x y : Int, 0 ≤ x → x < w → 0 ≤ y → y < h →
        (m (x + y * w)).val ≤ 255 ∧
        (qualifies data w h x y = false → m (x + y * w) = 0) ∧
        (qualifies data w h x y = true →
          (m (x + y * w)).val = ring_sum data w h x y / 16) ∧
        (m (x + y * w) ≠ 0 → qualifies data w h x y = true) ∧
        (qualifies data w h x y = true →
          (m (x + y * w) = 0 ↔ ring_sum data w h x y < 16)) := by
  refine ⟨scored data w h zero_buf, FAST_point_test_eq hw hh ⟨hwi, hhi, hlast⟩ _ _, ?_⟩
  intro x y hx0 hxw hy0 hyh
  have hlt := (scored data w h zero_buf (x + y * w)).isLt
  have hqf : qualifies data w h x y = false → scored data w h zero_buf (x + y * w) = 0 := by
    intro hq
    rw [scored_pixel data _ hx0 hxw hy0 hyh, hq]
    rfl
  have hqt : qualifies data w h x y = true →
      (scored data w h zero_buf (x + y * w)).val = ring_sum data w h x y / 16 := by
    intro hq
    rw [scored_pixel data _ hx0 hxw hy0 hyh, if_pos hq, score_val]
  refine ⟨by omega, hqf, hqt, ?_, ?_⟩
  · intro hne
    cases hq : qualifies data w h x y
    · exact absurd (hqf hq) hne
    · rfl
  · intro hq
    have hv := hqt hq
    constructor
    · intro h0
      rw [h0] at hv
      have h00 : ((0 : U8).val) = 0 := rfl
      omega
    · intro hs
      apply Fin.ext
      rw [hv]
      have h00 : ((0 : U8).val) = 0 := rfl
      omega

/-- Witness of C9 (amended) on the image `image_8x8`: pixel (4,1) qualifies and its element is
100; pixel (0,0) does not qualify and its element is 0. -/
theorem score_map_zero_background_witness :
    (0 : Int) < 8 ∧ ((8 : Int) - 1) * 8 ≤ 2147483647 ∧
      ∃ m, FAST_point_test image_8x8 8 8 zero_buf = .ok m ∧
        (m (4 + 1 * 8)).val = 100 ∧ m (0 + 0 * 8) = 0 := by
  obtain ⟨m, h1, h2⟩ := score_map_zero_background 8 8 (by decide) (by decide) (by decide)
    (by decide) (by decide) image_8x8
  refine ⟨by decide, by decide, m, h1, ?_, ?_⟩
  · rw [(h2 4 1 (by decide) (by decide) (by decide) (by decide)).2.2.1 (by decide)]
    decide
  · exact (h2 0 0 (by decide) (by decide) (by decide) (by decide)).2.1 (by decide)

/-- C10, against the claim: a 1073741824 x 6 image that is 100 at pixel (3,0) and 0 elsewhere.
The `int` product `4 * 1073741824` overflows to 0, so the code reads and writes row 4 at the
elements of row 0: it reads pixel (3,4) as 100 on a ring of zeros, takes it for a corner and
stores its score in the element of pixel (3,0), a pixel of the outermost row.  That element
held 255 and holds at most 100 afterwards. -/
theorem border_pixel_overwritten :
    ((0 : Int) = 0 ∨ (0 : Int) = 6 - 1) ∧
      ∃ res', FAST_point_test alias_spike 1073741824 6 full_buf = .ok res' ∧
        (res' (3 + 0 * 1073741824)).val ≤ 100 ∧
        (full_buf (3 + 0 * 1073741824)).val = 255 := by
  obtain ⟨r, h1, h2⟩ := FAST_point_test_written (w := 1073741824) (h := 6) (by decide)
    (by decide) alias_spike 100
    (fun i => by unfold alias_spike; split_ifs <;> decide) 3 4 (by decide) (by decide)
    (3 + 0 * 1073741824) (fun s => ⟨0, by decide, by rfl⟩) full_buf
  exact ⟨Or.inl rfl, r, h1, h2, rfl⟩

/-- C10, amended: for every width `w > 0` and height `h > 0` of type `int` with
`(h - 1) * w ≤ INT_MAX` and every image, a pixel with `x = 0`, `x = w - 1`, `y = 0` or
`y = h - 1` is left unchanged in the result buffer by `FAST_point_test`: edge clamping makes
one of its four compass samples the pixel itself, so it fails the candidate test. -/
theorem border_pixel_unchanged (w h : Int) (hw : 0 < w) (hh : 0 < h)
    (hwi : w ≤ 2147483647) (hhi : h ≤ 2147483647) (hlast : (h - 1) * w ≤ 2147483647)
    (data res : Buf)
    (x y : Int) (hx0 : 0 ≤ x) (hxw : x < w) (hy0 : 0 ≤ y) (hyh : y < h)
    (hb : x = 0 ∨ x = w - 1 ∨ y = 0 ∨ y = h - 1) :
    ∃ res', FAST_point_test data w h res = .ok res' ∧
      res' (x + y * w) = res (x + y * w) ∧
      candidate data w h x y = false ∧
      (get_element w h x (y - 3) = get_element w h x y ∨
       get_element w h (x + 3) y = get_element w h x y ∨
       get_element w h x (y + 3) = get_element w h x y ∨
       get_element w h (x - 3) y = get_element w h x y) := by
  have hf : fits_int w h := ⟨hwi, hhi, hlast⟩
  have hoff := border_offset_eq hx0 hxw hy0 hyh hb
  have hc : candidate data w h x y = false := by
    apply not_candidate_of_compass_eq
    unfold sample
    rcases hoff with ho | ho | ho | ho
    · left; rw [ho]
    · right; left; rw [ho]
    · right; right; left; rw [ho]
    · right; right; right; rw [ho]
  refine ⟨scored data w h res, FAST_point_test_eq hw hh hf _ _, ?_, hc, ?_⟩
  · rw [scored_pixel data res hx0 hxw hy0 hyh, not_qualifies_of_not_candidate hc]
    rfl
  · simp only [get_element_ok hw hh hf]
    rcases hoff with ho | ho | ho | ho
    · left; rw [ho]
    · right; left; rw [ho]
    · right; right; left; rw [ho]
    · right; right; right; rw [ho]

/-- Witness of C10 (amended): pixel (0,3) of the 7x7 image that is 100 at (3,3) and 0
elsewhere, with a result buffer of zeros. -/
theorem border_pixel_unchanged_witness :
    (0 : Int) < 7 ∧ ((7 : Int) - 1) * 7 ≤ 2147483647 ∧
      ((0 : Int) = 0 ∨ (0 : Int) = 7 - 1 ∨ (3 : Int) = 0 ∨ (3 : Int) = 7 - 1) ∧
      ∃ res', FAST_point_test spike_7x7 7 7 zero_buf = .ok res' ∧
        res' (0 + 3 * 7) = zero_buf (0 + 3 * 7) := by
  obtain ⟨r, h1, h2, _⟩ :=
    border_pixel_unchanged 7 7 (by decide) (by decide) (by decide) (by decide) (by decide)
      spike_7x7 zero_buf 0 3 (by decide) (by decide) (by decide) (by decide) (Or.inl rfl)
  exact ⟨by decide, by decide, Or.inl rfl, r, h1, h2⟩

/-! ## The decode loops: lemmas -/

theorem pairs_length (l : List Frame) : (pairs l).length = l.length - 1 := by
  induction l with
  | nil => rfl
  | cons a l ih =>
    cases l with
    | nil => rfl
    | cons b l =>
      simp only [pairs, List.length_cons] at ih ⊢
      omega

theorem pairs_getElem? (l : List Frame) (k : Nat) (hk : k + 1 < l.length) :
    (pairs l)[k]? = some (l[k]?, l[k + 1]?) := by
  induction l generalizing k with
  | nil => simp at hk
  | cons a l ih =>
    cases l with
    | nil => simp at hk
    | cons b l =>
      cases k with
      | zero => simp [pairs]
      | succ k =>
        simp only [List.length_cons] at hk
        have := ih k (by simp only [List.length_cons]; omega)
        simpa [pairs] using this

theorem main_loop_other (fuel : Nat) (events : List Bool) (l : List Packet)
    (pk : Option Packet) (dr : Bool) (bs : List Frame) (ff sf : Option Frame)
    (shown : List (Option Frame × Option Frame)) :
    main_loop fuel events ⟨Packet.other :: l, pk, dr, bs, ff, sf⟩ shown =
      main_loop fuel events ⟨l, pk, dr, bs, ff, sf⟩ shown := by
  cases fuel with
  | zero => rfl
  | succ fuel => simp only [main_loop, get_one_valid_pkt, read_valid_pkt]

theorem priming_loop_other (fuel : Nat) (l : List Packet)
    (pk : Option Packet) (dr : Bool) (bs : List Frame) (ff sf : Option Frame) :
    priming_loop fuel ⟨Packet.other :: l, pk, dr, bs, ff, sf⟩ =
      priming_loop fuel ⟨l, pk, dr, bs, ff, sf⟩ := by
  cases fuel with
  | zero => rfl
  | succ fuel => simp only [priming_loop, get_one_valid_pkt, read_valid_pkt]

theorem priming_loop_again (fuel : Nat) (l : List Packet)
    (pk : Option Packet) (bs : List Frame) (ff sf : Option Frame) :
    priming_loop (fuel + 1) ⟨Packet.video Decoded.again :: l, pk, false, bs, ff, sf⟩ =
      priming_loop fuel ⟨l, none, false, bs, ff, none⟩ := by
  simp [priming_loop, get_one_valid_pkt, read_valid_pkt, get_one_frame]

theorem priming_loop_frame (fuel : Nat) (f : Frame) (l : List Packet)
    (pk : Option Packet) (bs : List Frame) (ff sf : Option Frame) :
    priming_loop (fuel + 1) ⟨Packet.video (Decoded.frame f) :: l, pk, false, bs, ff, sf⟩ =
      some (.ok ⟨l, none, false, bs, ff, some f⟩) := by
  simp [priming_loop, get_one_valid_pkt, read_valid_pkt, get_one_frame]

theorem priming_loop_nil (fuel : Nat) (pk : Option Packet) (bs : List Frame)
    (ff sf : Option Frame) :
    priming_loop (fuel + 1) ⟨[], pk, false, bs, ff, sf⟩ =
      some (.ok ⟨[], none, true, bs.tail, ff, bs.head?⟩) := by
  cases bs <;> simp [priming_loop, get_one_valid_pkt, read_valid_pkt, get_one_frame]

theorem main_loop_draining (fuel : Nat) (pk : Option Packet) (bs : List Frame)
    (ff sf : Option Frame) (shown : List (Option Frame × Option Frame)) :
    main_loop (fuel + 1) [] ⟨[], pk, true, bs, ff, sf⟩ shown = some ⟨shown, 1⟩ := by
  simp [main_loop, get_one_valid_pkt, read_valid_pkt, get_one_frame]

theorem main_loop_frames (bs : List Frame) (rest : List Packet)
    (hrest : ∀ p ∈ rest, p = Packet.other ∨ ∃ f, p = Packet.video (Decoded.frame f)) :
    ∀ (fuel : Nat) (pk : Option Packet) (ff : Option Frame) (f0 : Frame)
      (shown : List (Option Frame × Option Frame)), rest.length + 1 ≤ fuel →
      main_loop fuel [] ⟨rest, pk, false, bs, ff, some f0⟩ shown =
        some ⟨shown ++ pairs (f0 :: (frames_of rest ++ bs.take 1)), 0⟩ := by
  induction rest with
  | nil =>
    intro fuel pk ff f0 shown hfuel
    obtain ⟨fuel, rfl⟩ : ∃ n, fuel = n + 1 := ⟨fuel - 1, by simp at hfuel; omega⟩
    cases bs <;>
      simp [main_loop, get_one_valid_pkt, read_valid_pkt, get_one_frame, frames_of, pairs]
  | cons p rest ih =>
    intro fuel pk ff f0 shown hfuel
    have ih' := ih (fun q hq => hrest q (List.mem_cons_of_mem p hq))
    simp only [List.length_cons] at hfuel
    rcases hrest p (List.mem_cons_self p rest) with hp | ⟨f, hp⟩
    · subst hp
      rw [main_loop_other, ih' fuel pk ff f0 shown (by omega)]
      rfl
    · subst hp
      obtain ⟨fuel, rfl⟩ : ∃ n, fuel = n + 1 := ⟨fuel - 1, by omega⟩
      have step : main_loop (fuel + 1) []
            ⟨Packet.video (Decoded.frame f) :: rest, pk, false, bs, ff, some f0⟩ shown =
          main_loop fuel [] ⟨rest, none, false, bs, none, some f⟩
            (shown ++ [(some f0, some f)]) := by
        simp [main_loop, get_one_valid_pkt, read_valid_pkt, get_one_frame]
      rw [step, ih' fuel none none f (shown ++ [(some f0, some f)]) (by omega)]
      simp [frames_of, pairs]

theorem main_with_frames (bs : List Frame) (rest : List Packet)
    (hrest : ∀ p ∈ rest, p = Packet.other ∨ ∃ f, p = Packet.video (Decoded.frame f)) :
    ∀ (fp fm : Nat) (pk : Option Packet) (ff sf : Option Frame),
      1 ≤ fp → rest.length + 1 ≤ fm →
      ∃ code, main_with fp fm [] ⟨rest, pk, false, bs, ff, sf⟩ =
        some ⟨pairs (frames_of rest ++ bs.take 1), code⟩ := by
  induction rest with
  | nil =>
    intro fp fm pk ff sf hfp hfm
    obtain ⟨fp, rfl⟩ : ∃ n, fp = n + 1 := ⟨fp - 1, by omega⟩
    obtain ⟨fm, rfl⟩ : ∃ n, fm = n + 1 := ⟨fm - 1, by simp at hfm; omega⟩
    refine ⟨1, ?_⟩
    unfold main_with
    rw [priming_loop_nil]
    simp only [main_loop_draining]
    cases bs <;> simp [frames_of, pairs]
  | cons p rest ih =>
    intro fp fm pk ff sf hfp hfm
    have ih' := ih (fun q hq => hrest q (List.mem_cons_of_mem p hq))
    simp only [List.length_cons] at hfm
    rcases hrest p (List.mem_cons_self p rest) with hp | ⟨f, hp⟩
    · subst hp
      obtain ⟨code, hc⟩ := ih' fp fm pk ff sf hfp (by omega)
      refine ⟨code, ?_⟩
      unfold main_with at hc ⊢
      rw [priming_loop_other]
      exact hc
    · subst hp
      obtain ⟨fp, rfl⟩ : ∃ n, fp = n + 1 := ⟨fp - 1, by omega⟩
      refine ⟨0, ?_⟩
      unfold main_with
      rw [priming_loop_frame]
      simp only []
      rw [main_loop_frames bs rest (fun q hq => hrest q (List.mem_cons_of_mem _ hq)) fm none
        ff f [] (by omega)]
      simp [frames_of]

theorem main_with_again (bs : List Frame) (rest : List Packet)
    (hrest : ∀ p ∈ rest, p = Packet.other ∨ ∃ f, p = Packet.video (Decoded.frame f))
    (pre : List Packet)
    (hpre : ∀ p ∈ pre, p = Packet.other ∨ p = Packet.video Decoded.again) :
    ∀ (fp fm : Nat) (pk : Option Packet) (ff sf : Option Frame),
      pre.length + 1 ≤ fp → rest.length + 1 ≤ fm →
      ∃ code, main_with fp fm [] ⟨pre ++ rest, pk, false, bs, ff, sf⟩ =
        some ⟨pairs (frames_of rest ++ bs.take 1), code⟩ := by
  induction pre with
  | nil =>
    intro fp fm pk ff sf hfp hfm
    exact main_with_frames bs rest hrest fp fm pk ff sf (by simp at hfp; omega) hfm
  | cons p pre ih =>
    intro fp fm pk ff sf hfp hfm
    have ih' := ih (fun q hq => hpre q (List.mem_cons_of_mem p hq))
    simp only [List.length_cons] at hfp
    rcases hpre p (List.mem_cons_self p pre) with hp | hp
    · subst hp
      obtain ⟨code, hc⟩ := ih' fp fm pk ff sf (by omega) hfm
      refine ⟨code, ?_⟩
      unfold main_with at hc ⊢
      rw [List.cons_append, priming_loop_other]
      exact hc
    · subst hp
      obtain ⟨fp, rfl⟩ : ∃ n, fp = n + 1 := ⟨fp - 1, by omega⟩
      obtain ⟨code, hc⟩ := ih' fp fm none ff none (by omega) hfm
      refine ⟨code, ?_⟩
      unfold main_with at hc ⊢
      rw [List.cons_append, priming_loop_again]
      exact hc

/-! ## The decode loops always end -/

theorem read_valid_pkt_length (l : List Packet) (r : Nat) (pk : Option Packet)
    (rest : List Packet) (h : read_valid_pkt l = some (r, pk, rest)) (hr : r = 0) :
    rest.length < l.length := by
  induction l with
  | nil =>
    simp only [read_valid_pkt, Option.some.injEq, Prod.mk.injEq] at h
    omega
  | cons p l ih =>
    cases p with
    | other =>
      simp only [read_valid_pkt] at h
      have := ih h
      simp only [List.length_cons]
      omega
    | video out =>
      simp only [read_valid_pkt, Option.some.injEq, Prod.mk.injEq] at h
      obtain ⟨_, _, h3⟩ := h
      subst h3
      simp
    | broken => simp [read_valid_pkt] at h

theorem get_one_valid_pkt_length (ctx ctx' : avCtx) (eof : Nat)
    (h : get_one_valid_pkt ctx = .ok (eof, ctx')) (he : eof = 0) :
    ctx'.input.length < ctx.input.length := by
  unfold get_one_valid_pkt at h
  split at h
  · simp at h
  · rename_i r pk rest hread
    simp only [Except.ok.injEq, Prod.mk.injEq] at h
    obtain ⟨h1, h2⟩ := h
    subst h2
    exact read_valid_pkt_length _ r pk rest hread (h1.trans he)

theorem get_one_frame_input (ctx ctx' : avCtx) (s : Nat)
    (h : get_one_frame ctx = .ok (s, ctx')) : ctx'.input = ctx.input := by
  unfold get_one_frame at h
  split at h
  · simp at h
  · split at h
    · split at h <;>
      · simp only [Except.ok.injEq, Prod.mk.injEq] at h
        obtain ⟨_, h2⟩ := h
        subst h2
        rfl
    all_goals first
      | (simp only [Except.ok.injEq, Prod.mk.injEq] at h
         obtain ⟨_, h2⟩ := h
         subst h2
         rfl)
      | simp at h

theorem read_valid_pkt_le (l : List Packet) (r : Nat) (pk : Option Packet)
    (rest : List Packet) (h : read_valid_pkt l = some (r, pk, rest)) :
    rest.length ≤ l.length := by
  induction l with
  | nil =>
    simp only [read_valid_pkt, Option.some.injEq, Prod.mk.injEq] at h
    obtain ⟨_, _, h3⟩ := h
    subst h3
    exact Nat.le_refl _
  | cons p l ih =>
    cases p with
    | other =>
      simp only [read_valid_pkt] at h
      have := ih h
      simp only [List.length_cons]
      omega
    | video out =>
      simp only [read_valid_pkt, Option.some.injEq, Prod.mk.injEq] at h
      obtain ⟨_, _, h3⟩ := h
      subst h3
      simp
    | broken => simp [read_valid_pkt] at h

theorem get_one_valid_pkt_le (ctx ctx' : avCtx) (eof : Nat)
    (h : get_one_valid_pkt ctx = .ok (eof, ctx')) :
    ctx'.input.length ≤ ctx.input.length := by
  unfold get_one_valid_pkt at h
  split at h
  · simp at h
  · rename_i r pk rest hread
    simp only [Except.ok.injEq, Prod.mk.injEq] at h
    obtain ⟨_, h2⟩ := h
    subst h2
    exact read_valid_pkt_le _ r pk rest hread

theorem priming_loop_input_le (fuel : Nat) (ctx ctx' : avCtx)
    (h : priming_loop fuel ctx = some (.ok ctx')) :
    ctx'.input.length ≤ ctx.input.length := by
  induction fuel generalizing ctx with
  | zero => simp [priming_loop] at h
  | succ fuel ih =>
    unfold priming_loop at h
    split at h
    · simp at h
    · rename_i eof ctx1 h1
      split at h
      · simp at h
      · rename_i eagain ctx2 h2
        have hle := get_one_valid_pkt_le ctx ctx1 eof h1
        have hin := congrArg List.length (get_one_frame_input ctx1 ctx2 eagain h2)
        simp only [] at h
        split at h
        · have := ih _ h
          simp only [] at this
          omega
        · simp only [Option.some.injEq, Except.ok.injEq] at h
          subst h
          simp only []
          omega

theorem priming_loop_total (fuel : Nat) (ctx : avCtx) (hf : ctx.input.length + 1 ≤ fuel) :
    ∃ r, priming_loop fuel ctx = some r := by
  induction fuel generalizing ctx with
  | zero => omega
  | succ fuel ih =>
    unfold priming_loop
    split
    · exact ⟨_, rfl⟩
    · rename_i eof ctx1 h1
      split
      · exact ⟨_, rfl⟩
      · rename_i eagain ctx2 h2
        simp only []
        split
        · rename_i hc
          apply ih
          have hlen := get_one_valid_pkt_length ctx ctx1 eof h1 hc.1
          have hin := congrArg List.length (get_one_frame_input ctx1 ctx2 eagain h2)
          simp only []
          omega
        · exact ⟨_, rfl⟩

theorem main_loop_total (fuel : Nat) (events : List Bool) (ctx : avCtx)
    (shown : List (Option Frame × Option Frame)) (hf : ctx.input.length + 1 ≤ fuel) :
    ∃ run, main_loop fuel events ctx shown = some run := by
  induction fuel generalizing ctx events shown with
  | zero => omega
  | succ fuel ih =>
    unfold main_loop
    split
    · exact ⟨_, rfl⟩
    · simp only []
      split
      · exact ⟨_, rfl⟩
      · rename_i eof ctx1 h1
        split
        · exact ⟨_, rfl⟩
        · rename_i status ctx2 h2
          have hin := congrArg List.length (get_one_frame_input ctx1 ctx2 status h2)
          by_cases he : eof = 0
          · have hlen := get_one_valid_pkt_length _ ctx1 eof h1 he
            simp only [] at hlen
            simp only [he, decide_True, if_true]
            split
            · apply ih
              omega
            · split
              · exact ⟨_, rfl⟩
              · apply ih
                simp only []
                omega
          · simp only [he, decide_False, Bool.false_eq_true, if_false]
            split
            · exact ⟨_, rfl⟩
            · split <;> exact ⟨_, rfl⟩

/-- The decode part of `main` comes to an end whatever the packets, the frames the codec holds
back and the events are: the iterations allowed to the two loops are never used up. -/
theorem main_total (input : List Packet) (buffered : List Frame) (events : List Bool) :
    ∃ run, main input buffered events = some run := by
  unfold main main_with
  obtain ⟨r, hr⟩ := priming_loop_total (input.length + 1)
    ⟨input, none, false, buffered, none, none⟩ (Nat.le_refl _)
  rw [hr]
  cases r with
  | error e => exact ⟨_, rfl⟩
  | ok ctx =>
    simp only []
    apply main_loop_total
    have := priming_loop_input_le _ _ ctx hr
    simp only [] at this
    omega

/-! ## The decode loops: claims -/

/-- C7, against the claim: a decoder that yields exactly 3 video frames, the first after the
third video packet and the other two when it is flushed at the end of the stream.  With no
stop request `main` presents one composed frame, the pair (1, 2), not two: after the end of
the stream it fetches one frame and stops, and frame 3 stays in the codec. -/
theorem main_leaves_buffered_frames :
    frames_of [Packet.video Decoded.again, Packet.video Decoded.again,
        Packet.video (Decoded.frame 1)] ++ [2, 3] = [1, 2, 3] ∧
    main [Packet.video Decoded.again, Packet.video Decoded.again,
        Packet.video (Decoded.frame 1)] [2, 3] [] = some ⟨[(some 1, some 2)], 0⟩ := by
  decide

/-- C7, amended: take a decoder that answers needs-more-input only before its first frame
(the packets `pre`), and then a frame for every video packet (the packets `rest`), without
read or decode failure, and that holds the frames `bs` back until it is flushed.  The loops
of `main` fetch the frames of `rest` and the first frame of `bs`, `N` frames in all, and with
no stop request they present exactly `N - 1` composed frames, the `k`-th pairing the `k`-th
fetched frame as current with the `(k+1)`-th as next. -/
theorem main_framing (pre rest : List Packet) (bs : List Frame)
    (hpre : ∀ p ∈ pre, p = Packet.other ∨ p = Packet.video Decoded.again)
    (hrest : ∀ p ∈ rest, p = Packet.other ∨ ∃ f, p = Packet.video (Decoded.frame f)) :
    ∃ run, main (pre ++ rest) bs [] = some run ∧
      run.presented.length = (frames_of rest ++ bs.take 1).length - 1 ∧
      ∀ k, k + 1 < (frames_of rest ++ bs.take 1).length →
        run.presented[k]? =
          some ((frames_of rest ++ bs.take 1)[k]?, (frames_of rest ++ bs.take 1)[k + 1]?) := by
  obtain ⟨code, hc⟩ := main_with_again bs rest hrest pre hpre
    ((pre ++ rest).length + 1) ((pre ++ rest).length + 1) none none none
    (by simp only [List.length_append]; omega) (by simp only [List.length_append]; omega)
  refine ⟨⟨pairs (frames_of rest ++ bs.take 1), code⟩, hc, ?_, ?_⟩
  · exact pairs_length _
  · intro k hk
    exact pairs_getElem? _ k hk

/-- Witness of C7 (amended): six packets, three of them decoding to the frames 1, 2, 3; two
composed frames are presented, the second pairing frame 2 with frame 3. -/
theorem main_framing_witness :
    (∀ p ∈ [Packet.other, Packet.video Decoded.again],
        p = Packet.other ∨ p = Packet.video Decoded.again) ∧
      ∃ run, main ([Packet.other, Packet.video Decoded.again] ++
          [Packet.video (Decoded.frame 1), Packet.other, Packet.video (Decoded.frame 2),
            Packet.video (Decoded.frame 3)]) [] [] = some run ∧
        run.presented.length = 2 ∧ run.presented[1]? = some (some 2, some 3) := by
  have hpre : ∀ p ∈ [Packet.other, Packet.video Decoded.again],
      p = Packet.other ∨ p = Packet.video Decoded.again := by decide
  obtain ⟨run, h1, h2, h3⟩ := main_framing [Packet.other, Packet.video Decoded.again]
    [Packet.video (Decoded.frame 1), Packet.other, Packet.video (Decoded.frame 2),
      Packet.video (Decoded.frame 3)] [] hpre (by simp)
  exact ⟨hpre, run, h1, h2, h3 1 (by decide)⟩

/-- C8, evaluated: the decoder answers frame 1 to the first video packet, needs-more-input to
the second and frame 2 to the third.  The `continue` of the main loop goes back to the
window shift, which replaces the current frame 1 by the empty next frame: the one composed
frame that `main` presents pairs an empty current frame with frame 2. -/
theorem main_needs_more_input_empties_current :
    main [Packet.video (Decoded.frame 1), Packet.video Decoded.again,
        Packet.video (Decoded.frame 2)] [] [] = some ⟨[(none, some 2)], 0⟩ := by
  decide

/-! ## Totality and memory safety of `FAST_point_test` -/

theorem foldlM_pure_self {α : Type} (l : List α) (s : Buf) :
    l.foldlM (fun (res : Buf) (_ : α) => (pure res : Except String Buf)) s = .ok s := by
  induction l with
  | nil => rfl
  | cons a l ih =>
    rw [List.foldlM_cons]
    exact ih

theorem FAST_point_test_no_pixel (data : Buf) (w h : Int) (res : Buf)
    (hwh : ¬ (0 < w ∧ 0 < h)) : FAST_point_test data w h res = .ok res := by
  unfold FAST_point_test
  by_cases hw : 0 < w
  · have e : h.toNat = 0 := Int.toNat_eq_zero.mpr (by
      by_contra hc
      exact hwh ⟨hw, by omega⟩)
    rw [e]
    exact foldlM_pure_self _ res
  · have e : w.toNat = 0 := Int.toNat_eq_zero.mpr (by omega)
    rw [e]
    rfl

theorem FAST_point_test_returns (data : Buf) (w h : Int) (res : Buf) :
    ∃ res', FAST_point_test data w h res = .ok res' ∧ (¬ (0 < w ∧ 0 < h) → res' = res) := by
  by_cases hwh : 0 < w ∧ 0 < h
  · obtain ⟨hw, hh⟩ := hwh
    have hB : ∀ i, (data i).val ≤ 255 := fun i => by
      have := (data i).isLt
      omega
    obtain ⟨r, hr, _⟩ := foldlM_invariant
      (fun (res : Buf) (pw : Nat) =>
        (List.range h.toNat).foldlM
          (fun (res : Buf) (ph : Nat) => FAST_point_body data w h res (pw : Int) (ph : Int))
          res)
      (fun _ => True) (List.range w.toNat)
      (fun s pw _ _ => by
        obtain ⟨s', hs', _⟩ := foldlM_invariant
          (fun (res : Buf) (ph : Nat) => FAST_point_body data w h res (pw : Int) (ph : Int))
          (fun _ => True) (List.range h.toNat)
          (fun s ph _ _ => by
            obtain ⟨s', hs', _⟩ :=
              FAST_point_body_shape hw hh data 255 hB s (pw : Int) (ph : Int)
            exact ⟨s', hs', trivial⟩) s trivial
        exact ⟨s', hs', trivial⟩) res trivial
    exact ⟨r, hr, fun hn => absurd ⟨hw, hh⟩ hn⟩
  · exact ⟨res, FAST_point_test_no_pixel data w h res hwh, fun _ => rfl⟩

theorem FAST_point_body_checked_eq {w h : Int} (hw : 0 < w) (hh : 0 < h)
    (hf : fits_int w h) (data res : Buf) (pw ph : Int) :
    FAST_point_body_checked data w h res pw ph = FAST_point_body data w h res pw ph := by
  have hr := clamp_offset_range hw hh
  unfold FAST_point_body_checked FAST_point_body
  simp only [get_element_ok hw hh hf, load_checked, store_checked, hr, and_self, if_true,
    bind, Except.bind, pure, Except.pure]

theorem FAST_point_test_checked_eq (data : Buf) (w h : Int) (res : Buf)
    (hf : 0 < w → 0 < h → fits_int w h) :
    FAST_point_test_checked data w h res = FAST_point_test data w h res := by
  unfold FAST_point_test_checked FAST_point_test
  by_cases hw : 0 < w
  · by_cases hh : 0 < h
    · simp only [FAST_point_body_checked_eq hw hh (hf hw hh)]
    · have e : h.toNat = 0 := Int.toNat_eq_zero.mpr (by omega)
      rw [e]
      rfl
  · have e : w.toNat = 0 := Int.toNat_eq_zero.mpr (by omega)
    rw [e]
    rfl

theorem foldlM_range_error_first (step : Buf → Nat → Except String Buf) (n : Nat)
    (hn : 0 < n) (s : Buf) (e : String) (h0 : step s 0 = .error e) :
    (List.range n).foldlM step s = .error e := by
  obtain ⟨m, rfl⟩ : ∃ m, n = m + 1 := ⟨n - 1, by omega⟩
  rw [List.range_succ_eq_map, List.foldlM_cons, h0]
  rfl

theorem load_checked_outside (n : Int) (buf : Buf) (off : Int) (h : off < 0 ∨ n ≤ off) :
    load_checked n buf off = .error "out of bounds" := by
  unfold load_checked
  rw [if_neg (fun hc => by omega)]

theorem store_checked_outside (n : Int) (buf : Buf) (off : Int) (v : U8)
    (h : off < 0 ∨ n ≤ off) : store_checked n buf off v = .error "out of bounds" := by
  unfold store_checked
  rw [if_neg (fun hc => by omega)]

/-- C11, against the claim: for width 1073741824 and height 4, both above 0, the first pixel
visited is (0,0); the pointer to its lower compass sample (0,3) is computed with the
overflowing `int` product `3 * 1073741824` and lies 1073741824 elements before the image.
The run with every access checked against `[0, w * h)` stops at that read. -/
theorem FAST_point_test_reads_before_image :
    get_element 1073741824 4 0 (int32 (0 + 3)) = .ok (-1073741824) ∧
      FAST_point_test_checked zero_buf 1073741824 4 zero_buf = .error "out of bounds" := by
  refine ⟨rfl, ?_⟩
  unfold FAST_point_test_checked
  refine foldlM_range_error_first _ _ (by decide) _ _ ?_
  exact foldlM_range_error_first _ _ (by decide) _ _ rfl

/-- C11, amended: for all integers `w` and `h`, zero and negative values included,
`FAST_point_test` returns: no call of `get_element` it makes ends in `DIE`, and when `w` or
`h` is not positive no pixel is visited and the result buffer is returned as it was.  When
`w > 0` and `h > 0` are of type `int` with `(h - 1) * w ≤ INT_MAX`, the run in which every
read of the image and every write to the result buffer is checked against `[0, w * h)`
returns the same result: every access uses an offset inside `[0, w * h)`. -/
theorem FAST_point_test_total_and_in_bounds (w h : Int) (data res : Buf) :
    ∃ res', FAST_point_test data w h res = .ok res' ∧
      (¬ (0 < w ∧ 0 < h) → res' = res) ∧
      ((0 < w → 0 < h → w ≤ 2147483647 ∧ h ≤ 2147483647 ∧ (h - 1) * w ≤ 2147483647) →
        FAST_point_test_checked data w h res = .ok res') := by
  obtain ⟨r, h1, h2⟩ := FAST_point_test_returns data w h res
  refine ⟨r, h1, h2, ?_⟩
  intro hf
  rw [FAST_point_test_checked_eq data w h res hf, h1]

/-- Witness of C11 (amended) at width -2 and height 5, where the image `image_8x8` is not read
and the result buffer of zeros is returned as it was, and at width 8 and height 8, where the
checked run returns what the unchecked one returns. -/
theorem FAST_point_test_total_and_in_bounds_witness :
    ¬ ((0 : Int) < -2 ∧ (0 : Int) < 5) ∧
      (∃ res', FAST_point_test image_8x8 (-2) 5 zero_buf = .ok res' ∧ res' = zero_buf) ∧
      ((8 : Int) - 1) * 8 ≤ 2147483647 ∧
      (∃ res', FAST_point_test image_8x8 8 8 zero_buf = .ok res' ∧
        FAST_point_test_checked image_8x8 8 8 zero_buf = .ok res') := by
  obtain ⟨r, h1, h2, _⟩ := FAST_point_test_total_and_in_bounds (-2) 5 image_8x8 zero_buf
  obtain ⟨r8, g1, _, g3⟩ := FAST_point_test_total_and_in_bounds 8 8 image_8x8 zero_buf
  exact ⟨by decide, ⟨r, h1, h2 (by decide)⟩, by decide,
    ⟨r8, g1, g3 (fun _ _ => ⟨by decide, by decide, by decide⟩)⟩⟩

/-- The check is a real one: read without clamping, the upper compass neighbour of pixel
(4,1) of an 8x8 image, at offset `4 + (1 - 3) * 8`, is refused. -/
theorem unclamped_read_refused :
    load_checked (8 * 8) image_8x8 (4 + (1 - 3) * 8) = .error "out of bounds" :=
  load_checked_outside _ _ _ (Or.inl (by decide))

end VT
